import Mathlib

/-
Verification of the compiler front end (lexer, recursive-descent parser,
semantic analyzer) of the coulstock-cpp-compiler repository.

The C++ sources are shallowly embedded:
  * `TokenType`, `Token`       from include/lexer.hpp
  * `nextTokenSrc/tokenizeSrc` from include/lexer.hpp (Lexer::nextToken / Lexer::tokenize)
  * `nextTokenFull/tokenizeFull` — the newer lexer snapshot that defines the
    two-character comparison operators; see its doc comment
  * `Expr`, `Stmt`, parser functions from include/parser.hpp
  * scope and analyzer functions from include/semantic_analyzer.hpp

Machine integers (line/column counters, cursor) are modelled as `Nat`: they are
only ever incremented from small positive values, so no overflow is reachable
in any statement proved here.  `std::string` is modelled as `String`,
`std::vector`/map contents as lists.  The parser's `(tokens, current)` cursor
is modelled as a zipper `(consumed-in-reverse, remaining)`; the correspondence
is `tokens = consumed.reverse ++ remaining` and `current = consumed.length`,
which represents every state the C++ parser can reach (0 ≤ current ≤ size).
`NumberExpression` stores the numeric lexeme; the C++ stores
`std::stod(lexeme) : double`.  Every lexeme produced by the lexer for a NUMBER
token starts with a digit, on which stod succeeds, and no claim inspects the
converted value, so the conversion itself is left out of the model.
-/

namespace CC

/-- Token kinds, from the `TokenType` enum of include/lexer.hpp.  The snapshot
of lexer.hpp under src/ declares all of these except `LESS_EQUAL` and
`GREATER_EQUAL`; those two are required by parser.hpp (`Parser::parseComparison`
references `TokenType::GREATER_EQUAL` and `TokenType::LESS_EQUAL`), so the
lexer revision defining them is part of the repository but missing from src/,
and they are modelled here from the spec (§3, §4.1). -/
inductive TokenType where
  | INT | FLOAT | IF | ELSE | WHILE | RETURN
  | PLUS | MINUS | MULTIPLY | DIVIDE
  | ASSIGN | EQUAL | NOT_EQUAL | LESS | GREATER
  | LESS_EQUAL | GREATER_EQUAL
  | IDENTIFIER | NUMBER | LPAREN | RPAREN | LBRACE | RBRACE | SEMICOLON
  | EOF_TOKEN
  deriving DecidableEq

/-- A lexical token, from `struct Token` of include/lexer.hpp. -/
structure Token where
  type : TokenType
  value : String
  line : Nat
  column : Nat
  deriving DecidableEq

/-- ASCII whitespace recognised by `std::isspace` in the C locale. -/
def isSpaceC (c : Char) : Bool :=
  c = ' ' || c = '\t' || c = '\n' || c = '\x0d' || c = '\x0b' || c = '\x0c'

/-- ASCII digit test, `std::isdigit` in the C locale. -/
def isDigitC (c : Char) : Bool := '0' ≤ c && c ≤ '9'

/-- ASCII letter test, `std::isalpha` in the C locale. -/
def isAlphaC (c : Char) : Bool := ('a' ≤ c && c ≤ 'z') || ('A' ≤ c && c ≤ 'Z')

/-- ASCII letter-or-digit test, `std::isalnum` in the C locale. -/
def isAlnumC (c : Char) : Bool := isDigitC c || isAlphaC c

/-- Line/column bookkeeping of `Lexer::advance`: the column is incremented,
and a newline then moves to the next line and resets the column to 1. -/
def lexAdvance (c : Char) (line col : Nat) : Nat × Nat :=
  if c = '\n' then (line + 1, 1) else (line, col + 1)

/-- `Lexer::skipWhitespace`: consume the maximal whitespace prefix,
updating line/column. -/
def skipWs : List Char → Nat → Nat → List Char × Nat × Nat
  | [], l, c => ([], l, c)
  | ch :: rest, l, c =>
    if isSpaceC ch then
      let (l', c') := lexAdvance ch l c
      skipWs rest l' c'
    else (ch :: rest, l, c)

/-- Maximal run of characters satisfying `p`, as consumed by the loops of
`Lexer::readNumber` and `Lexer::readIdentifier`; returns the consumed run,
the remaining input and the updated line/column. -/
def readWhile (p : Char → Bool) : List Char → Nat → Nat → List Char × List Char × Nat × Nat
  | [], l, c => ([], [], l, c)
  | ch :: rest, l, c =>
    if p ch then
      let (l', c') := lexAdvance ch l c
      let (acc, rem, l'', c'') := readWhile p rest l' c'
      (ch :: acc, rem, l'', c'')
    else ([], ch :: rest, l, c)

/-- Keyword table `Lexer::keywords`, from src/lexer.cpp. -/
def keywordType (s : String) : Option TokenType :=
  if s = "int" then some .INT
  else if s = "float" then some .FLOAT
  else if s = "if" then some .IF
  else if s = "else" then some .ELSE
  else if s = "while" then some .WHILE
  else if s = "return" then some .RETURN
  else none

/-- Lexer failures.  `unexpected` is the `std::runtime_error` thrown by
`Lexer::nextToken` for a character matching no rule; `outOfFuel` is an
artifact of the embedding of the unbounded `tokenize` loop and is proved
unreachable wherever a claim needs it. -/
inductive LexErr where
  | unexpected (ch : Char)
  | outOfFuel
  deriving DecidableEq

/-- `Lexer::nextToken` exactly as in the snapshot of include/lexer.hpp under
src/: numbers, identifiers/keywords, and the ten single-character tokens
`+ - * / = ( ) LBRACE RBRACE ;`.  Every other character (including `>`, `<`
and `!`) throws. -/
def nextTokenSrc (input : List Char) (line col : Nat) :
    Except LexErr (Token × List Char × Nat × Nat) :=
  let (inp, l, c) := skipWs input line col
  match inp with
  | [] => .ok (⟨.EOF_TOKEN, "", l, c⟩, [], l, c)
  | ch :: rest =>
    if isDigitC ch then
      let (acc, rem, l', c') := readWhile (fun d => isDigitC d || d = '.') (ch :: rest) l c
      .ok (⟨.NUMBER, String.mk acc, l', c⟩, rem, l', c')
    else if isAlphaC ch || ch = '_' then
      let (acc, rem, l', c') := readWhile (fun d => isAlnumC d || d = '_') (ch :: rest) l c
      let s := String.mk acc
      match keywordType s with
      | some k => .ok (⟨k, s, l', c⟩, rem, l', c')
      | none => .ok (⟨.IDENTIFIER, s, l', c⟩, rem, l', c')
    else
      let (l', c') := lexAdvance ch l c
      match ch with
      | '+' => .ok (⟨.PLUS, "+", l', c⟩, rest, l', c')
      | '-' => .ok (⟨.MINUS, "-", l', c⟩, rest, l', c')
      | '*' => .ok (⟨.MULTIPLY, "*", l', c⟩, rest, l', c')
      | '/' => .ok (⟨.DIVIDE, "/", l', c⟩, rest, l', c')
      | '=' => .ok (⟨.ASSIGN, "=", l', c⟩, rest, l', c')
      | '(' => .ok (⟨.LPAREN, "(", l', c⟩, rest, l', c')
      | ')' => .ok (⟨.RPAREN, ")", l', c⟩, rest, l', c')
      | '{' => .ok (⟨.LBRACE, "\x7b", l', c⟩, rest, l', c')
      | '}' => .ok (⟨.RBRACE, "\x7d", l', c⟩, rest, l', c')
      | ';' => .ok (⟨.SEMICOLON, ";", l', c⟩, rest, l', c')
      | _ => .error (.unexpected ch)

/-- Modelled from the spec: `nextToken` of the lexer revision that recognises
the comparison operators, which is the revision consumed by parser.hpp (that
file references `TokenType::GREATER_EQUAL` and `TokenType::LESS_EQUAL`, which
the lexer.hpp snapshot under src/ never defines) but is itself missing from
src/.  Numbers, identifiers, keywords, whitespace and the single-character
tokens are exactly as in `nextTokenSrc`; per spec §4.1/§4.3 the lexer uses one
character of lookahead when the first character is `=`, `!`, `<` or `>`, so
that `==`, `!=`, `<=`, `>=` are produced as single tokens, a lone `=`, `<`,
`>` is the corresponding single-character operator, and a lone `!` (a token
kind of no rule) raises a lexical error. -/
def nextTokenFull (input : List Char) (line col : Nat) :
    Except LexErr (Token × List Char × Nat × Nat) :=
  let (inp, l, c) := skipWs input line col
  match inp with
  | [] => .ok (⟨.EOF_TOKEN, "", l, c⟩, [], l, c)
  | ch :: rest =>
    if isDigitC ch then
      let (acc, rem, l', c') := readWhile (fun d => isDigitC d || d = '.') (ch :: rest) l c
      .ok (⟨.NUMBER, String.mk acc, l', c⟩, rem, l', c')
    else if isAlphaC ch || ch = '_' then
      let (acc, rem, l', c') := readWhile (fun d => isAlnumC d || d = '_') (ch :: rest) l c
      let s := String.mk acc
      match keywordType s with
      | some k => .ok (⟨k, s, l', c⟩, rem, l', c')
      | none => .ok (⟨.IDENTIFIER, s, l', c⟩, rem, l', c')
    else
      let (l₁, c₁) := lexAdvance ch l c
      match ch, rest with
      | '=', '=' :: rest₂ =>
        let (l₂, c₂) := lexAdvance '=' l₁ c₁
        .ok (⟨.EQUAL, "==", l₂, c⟩, rest₂, l₂, c₂)
      | '!', '=' :: rest₂ =>
        let (l₂, c₂) := lexAdvance '=' l₁ c₁
        .ok (⟨.NOT_EQUAL, "!=", l₂, c⟩, rest₂, l₂, c₂)
      | '<', '=' :: rest₂ =>
        let (l₂, c₂) := lexAdvance '=' l₁ c₁
        .ok (⟨.LESS_EQUAL, "<=", l₂, c⟩, rest₂, l₂, c₂)
      | '>', '=' :: rest₂ =>
        let (l₂, c₂) := lexAdvance '=' l₁ c₁
        .ok (⟨.GREATER_EQUAL, ">=", l₂, c⟩, rest₂, l₂, c₂)
      | '=', _ => .ok (⟨.ASSIGN, "=", l₁, c⟩, rest, l₁, c₁)
      | '<', _ => .ok (⟨.LESS, "<", l₁, c⟩, rest, l₁, c₁)
      | '>', _ => .ok (⟨.GREATER, ">", l₁, c⟩, rest, l₁, c₁)
      | '+', _ => .ok (⟨.PLUS, "+", l₁, c⟩, rest, l₁, c₁)
      | '-', _ => .ok (⟨.MINUS, "-", l₁, c⟩, rest, l₁, c₁)
      | '*', _ => .ok (⟨.MULTIPLY, "*", l₁, c⟩, rest, l₁, c₁)
      | '/', _ => .ok (⟨.DIVIDE, "/", l₁, c⟩, rest, l₁, c₁)
      | '(', _ => .ok (⟨.LPAREN, "(", l₁, c⟩, rest, l₁, c₁)
      | ')', _ => .ok (⟨.RPAREN, ")", l₁, c⟩, rest, l₁, c₁)
      | '{', _ => .ok (⟨.LBRACE, "\x7b", l₁, c⟩, rest, l₁, c₁)
      | '}', _ => .ok (⟨.RBRACE, "\x7d", l₁, c⟩, rest, l₁, c₁)
      | ';', _ => .ok (⟨.SEMICOLON, ";", l₁, c⟩, rest, l₁, c₁)
      | _, _ => .error (.unexpected ch)

/-- The `Lexer::tokenize` loop: call `nextToken`, append the token, stop after
appending the `EOF_TOKEN`.  The fuel argument is an embedding artifact for the
unbounded `while (true)`; `tokenizeSrc`/`tokenizeFull` supply more fuel than
the loop can consume, since every non-EOF token removes at least one input
character. -/
def tokenizeLoop (next : List Char → Nat → Nat → Except LexErr (Token × List Char × Nat × Nat)) :
    Nat → List Char → Nat → Nat → Except LexErr (List Token)
  | 0, _, _, _ => .error .outOfFuel
  | f + 1, inp, l, c =>
    match next inp l c with
    | .error e => .error e
    | .ok (tok, rem, l', c') =>
      if tok.type = .EOF_TOKEN then .ok [tok]
      else
        match tokenizeLoop next f rem l' c' with
        | .error e => .error e
        | .ok ts => .ok (tok :: ts)

/-- `Lexer::tokenize` for the lexer snapshot under src/. -/
def tokenizeSrc (s : String) : Except LexErr (List Token) :=
  tokenizeLoop nextTokenSrc (s.toList.length + 1) s.toList 1 1

/-- `Lexer::tokenize` for the spec-modelled lexer revision with the
two-character comparison operators. -/
def tokenizeFull (s : String) : Except LexErr (List Token) :=
  tokenizeLoop nextTokenFull (s.toList.length + 1) s.toList 1 1

/-- Expression nodes of the AST, from parser.hpp: `BinaryExpression`,
`NumberExpression`, `IdentifierExpression`.  `num` stores the numeric lexeme
(the C++ stores `std::stod(lexeme)`; see the header comment). -/
inductive Expr where
  | binary (left : Expr) (op : TokenType) (right : Expr)
  | num (value : String)
  | ident (name : String)
  deriving DecidableEq

/-- Statement nodes of the AST, from parser.hpp: `FunctionDeclaration`,
`VariableDeclaration`, `ReturnStatement`, `IfStatement` (absent else branch is
the C++ `nullptr`, modelled as `none`), `BlockStatement`. -/
inductive Stmt where
  | funcDecl (name : String) (params : List String) (body : Stmt)
  | varDecl (name : String) (initExpr : Expr)
  | ret (value : Expr)
  | ifStmt (cond : Expr) (thenBranch : Stmt) (elseBranch : Option Stmt)
  | block (stmts : List Stmt)

/-- Node printer tag of utils.hpp `tokenTypeToString`.  The switch in utils.hpp
covers exactly the kinds of the lexer.hpp snapshot, so `LESS_EQUAL` and
`GREATER_EQUAL` fall into its `default:` branch and print as UNKNOWN. -/
def tokenTypeToString : TokenType → String
  | .INT => "INT" | .FLOAT => "FLOAT" | .IF => "IF" | .ELSE => "ELSE"
  | .WHILE => "WHILE" | .RETURN => "RETURN" | .PLUS => "PLUS" | .MINUS => "MINUS"
  | .MULTIPLY => "MULTIPLY" | .DIVIDE => "DIVIDE" | .ASSIGN => "ASSIGN"
  | .EQUAL => "EQUAL" | .NOT_EQUAL => "NOT_EQUAL" | .LESS => "LESS"
  | .GREATER => "GREATER" | .IDENTIFIER => "IDENTIFIER" | .NUMBER => "NUMBER"
  | .LPAREN => "LPAREN" | .RPAREN => "RPAREN" | .LBRACE => "LBRACE"
  | .RBRACE => "RBRACE" | .SEMICOLON => "SEMICOLON" | .EOF_TOKEN => "EOF"
  | _ => "UNKNOWN"

/-- Parser failures.  `msg` is the `std::runtime_error` message thrown by the
parser; `bounds` marks an out-of-bounds access into the token vector (C++
undefined behaviour: `tokens.back()` on an empty vector, `tokens[current-1]`
with `current = 0`, or `tokens[current]` past the end), which is not an
exception in C++ and therefore passes through the catch-and-rewrap handlers
untouched; `outOfFuel` is an artifact of embedding unbounded recursion. -/
inductive PErr where
  | msg (s : String)
  | bounds
  | outOfFuel
  deriving DecidableEq

/-- Parser cursor state: the pair `(consumed tokens in reverse, remaining
tokens)`.  It corresponds to the C++ `(tokens, current)` via
`tokens = consumed.reverse ++ remaining` and `current = consumed.length`;
the C++ cursor always stays in `[0, tokens.size()]`, so every reachable
state is represented. -/
abbrev PSt := List Token × List Token

/-- Whole token vector held by a parser state (constant across all cursor
moves). -/
def allToks (st : PSt) : List Token := st.1.reverse ++ st.2

/-- `Parser::peek`: the token under the cursor, or `tokens.back()` once the
cursor is at the end; `tokens.back()` on an empty vector is out of bounds. -/
def peekP : PSt → Except PErr Token
  | (cs, r) =>
    match r with
    | t :: _ => .ok t
    | [] =>
      match cs with
      | p :: _ => .ok p
      | [] => .error .bounds

/-- `Parser::previous`: `tokens[current - 1]`, out of bounds when
`current = 0` (size_t underflow in C++). -/
def previousP : PSt → Except PErr Token
  | (p :: _, _) => .ok p
  | ([], _) => .error .bounds

/-- `Parser::isAtEnd`: the current token is the `EOF_TOKEN`. -/
def isAtEndP (st : PSt) : Except PErr Bool := do
  let t ← peekP st
  if t.type = .EOF_TOKEN then pure true else pure false

/-- `Parser::advance`: step the cursor unless at the end, then return
`previous()`.  When not at the end but the cursor already sits past the last
element (possible only for token vectors not ending in `EOF_TOKEN`), the C++
increments `current` beyond `size` and `previous()` reads `tokens[size]`:
out of bounds. -/
def advanceP (st : PSt) : Except PErr (Token × PSt) := do
  let e ← isAtEndP st
  if e then do
    let t ← previousP st
    pure (t, st)
  else
    match st.2 with
    | t :: r => pure (t, (t :: st.1, r))
    | [] => .error .bounds

/-- `Parser::check`: false at the end of input, otherwise compare the peeked
token type. -/
def checkP (st : PSt) (ty : TokenType) : Except PErr Bool := do
  let e ← isAtEndP st
  if e then pure false
  else do
    let t ← peekP st
    if t.type = ty then pure true else pure false

/-- `Parser::match`: `check` then `advance` on success. -/
def matchTokP (st : PSt) (ty : TokenType) : Except PErr (Bool × PSt) := do
  let b ← checkP st ty
  if b then do
    let (_, st') ← advanceP st
    pure (true, st')
  else pure (false, st)

/-- `Parser::consume`: `advance` past an expected token or throw the given
message decorated with the peeked token's position. -/
def consumeP (st : PSt) (ty : TokenType) (m : String) : Except PErr (Token × PSt) := do
  let b ← checkP st ty
  if b then advanceP st
  else do
    let t ← peekP st
    .error (.msg (m ++ " at line " ++ toString t.line ++ ", column " ++ toString t.column))

/-- The `current--` rewind in `Parser::parseStatement` before re-parsing a
block; decrementing `current = 0` underflows `size_t` in C++, making every
subsequent access out of bounds. -/
def rewindP : PSt → Except PErr PSt
  | (p :: cs, r) => .ok (cs, p :: r)
  | ([], _) => .error .bounds

/-- The catch-and-rewrap handlers of parser.hpp (`catch (const std::exception
&e) ... throw std::runtime_error(prefix + e.what())`): they prefix thrown
parser messages; the `bounds`/`outOfFuel` artifacts are not C++ exceptions and
pass through. -/
def wrapErr (pre : String) : Except PErr α → Except PErr α
  | .error (.msg m) => .error (.msg (pre ++ m))
  | r => r

mutual

/-- `Parser::parseFunction`, the entry point: `int IDENT ( )` then a block.
The fuel argument (first) embeds the C++ recursion and is threaded through
every parser function. -/
def parseFunctionF : Nat → PSt → Except PErr (Stmt × PSt)
  | 0, _ => .error .outOfFuel
  | f + 1, st =>
    wrapErr "In function parsing: " (do
      let (_, st₁) ← consumeP st .INT "Expected int before function declaration"
      let (nameTok, st₂) ← consumeP st₁ .IDENTIFIER "Expected function name"
      let (_, st₃) ← consumeP st₂ .LPAREN "Expected ( after function name"
      let (_, st₄) ← consumeP st₃ .RPAREN "Expected ) after parameters"
      let (body, st₅) ← parseBlockF f st₄
      pure (Stmt.funcDecl nameTok.value [] body, st₅))

/-- `Parser::parseBlock`: an opening brace, statements until a closing brace
or end of input, then the closing brace. -/
def parseBlockF : Nat → PSt → Except PErr (Stmt × PSt)
  | 0, _ => .error .outOfFuel
  | f + 1, st =>
    wrapErr "In block parsing: " (do
      let (_, st₁) ← consumeP st .LBRACE "Expected opening brace before block"
      let (ss, st₂) ← parseBlockLoopF f st₁
      let (_, st₃) ← consumeP st₂ .RBRACE "Expected closing brace after block"
      pure (Stmt.block ss, st₃))

/-- The statement-gathering `while (!check(RBRACE) && !isAtEnd())` loop of
`Parser::parseBlock`. -/
def parseBlockLoopF : Nat → PSt → Except PErr (List Stmt × PSt)
  | 0, _ => .error .outOfFuel
  | f + 1, st => do
    let b ← checkP st .RBRACE
    let e ← isAtEndP st
    if !b && !e then do
      let (s, st₁) ← parseStatementF f st
      let (ss, st₂) ← parseBlockLoopF f st₁
      pure (s :: ss, st₂)
    else pure ([], st)

/-- `Parser::parseStatement`: return statement, if statement (optional else),
variable declaration, or nested block (unconsuming the LBRACE first). -/
def parseStatementF : Nat → PSt → Except PErr (Stmt × PSt)
  | 0, _ => .error .outOfFuel
  | f + 1, st =>
    wrapErr "In statement parsing: " (do
      let (mret, st₁) ← matchTokP st .RETURN
      if mret then do
        let (e, stA) ← parseExpressionF f st₁
        let (_, stB) ← consumeP stA .SEMICOLON "Expected ; after return statement"
        pure (Stmt.ret e, stB)
      else do
        let (mif, st₂) ← matchTokP st₁ .IF
        if mif then do
          let (_, stA) ← consumeP st₂ .LPAREN "Expected ( after if"
          let (cond, stB) ← parseExpressionF f stA
          let (_, stC) ← consumeP stB .RPAREN "Expected ) after if condition"
          let (thenB, stD) ← parseStatementF f stC
          parseElseOptF f cond thenB stD
        else do
          let (mint, st₃) ← matchTokP st₂ .INT
          if mint then do
            let (nameTok, stA) ← consumeP st₃ .IDENTIFIER "Expected variable name"
            let (_, stB) ← consumeP stA .ASSIGN "Expected = after variable name"
            let (ini, stC) ← parseExpressionF f stB
            let (_, stD) ← consumeP stC .SEMICOLON "Expected ; after variable declaration"
            pure (Stmt.varDecl nameTok.value ini, stD)
          else do
            let (mlb, st₄) ← matchTokP st₃ .LBRACE
            if mlb then do
              let stR ← rewindP st₄
              parseBlockF f stR
            else do
              let t ← peekP st₄
              .error (.msg ("Unexpected token: " ++ tokenTypeToString t.type)))

/-- The optional-else tail of the if-statement case of
`Parser::parseStatement` (`if (match(ELSE)) elseBranch = parseStatement();`
followed by building the `IfStatement` node), factored into its own function
so it can be reasoned about by name; the code is verbatim that of
parser.hpp. -/
def parseElseOptF : Nat → Expr → Stmt → PSt → Except PErr (Stmt × PSt)
  | 0, _, _, _ => .error .outOfFuel
  | f + 1, cond, thenB, st => do
    let (melse, stE) ← matchTokP st .ELSE
    if melse then do
      let (elseB, stG) ← parseStatementF f stE
      pure (Stmt.ifStmt cond thenB (some elseB), stG)
    else pure (Stmt.ifStmt cond thenB none, stE)

/-- `Parser::parseExpression`: delegates to the comparison level. -/
def parseExpressionF : Nat → PSt → Except PErr (Expr × PSt)
  | 0, _ => .error .outOfFuel
  | f + 1, st => wrapErr "In expression parsing: " (parseComparisonF f st)

/-- `Parser::parseComparison`: one term, then the left-folding comparison
loop. -/
def parseComparisonF : Nat → PSt → Except PErr (Expr × PSt)
  | 0, _ => .error .outOfFuel
  | f + 1, st => do
    let (e, st₁) ← parseTermF f st
    parseCompLoopF f e st₁

/-- The `while (check(GREATER) || ...)` loop of `Parser::parseComparison`;
`check` is side-effect free, so evaluating the six checks and disjoining
matches the C++ short-circuit evaluation. -/
def parseCompLoopF : Nat → Expr → PSt → Except PErr (Expr × PSt)
  | 0, _, _ => .error .outOfFuel
  | f + 1, e, st => do
    let b₁ ← checkP st .GREATER
    let b₂ ← checkP st .GREATER_EQUAL
    let b₃ ← checkP st .LESS
    let b₄ ← checkP st .LESS_EQUAL
    let b₅ ← checkP st .EQUAL
    let b₆ ← checkP st .NOT_EQUAL
    if b₁ || b₂ || b₃ || b₄ || b₅ || b₆ then do
      let (opTok, st₁) ← advanceP st
      let (rhs, st₂) ← parseTermF f st₁
      parseCompLoopF f (Expr.binary e opTok.type rhs) st₂
    else pure (e, st)

/-- `Parser::parseTerm`: one factor, then the left-folding `+`/`-` loop. -/
def parseTermF : Nat → PSt → Except PErr (Expr × PSt)
  | 0, _ => .error .outOfFuel
  | f + 1, st => do
    let (e, st₁) ← parseFactorF f st
    parseTermLoopF f e st₁

/-- The `while (check(PLUS) || check(MINUS))` loop of `Parser::parseTerm`. -/
def parseTermLoopF : Nat → Expr → PSt → Except PErr (Expr × PSt)
  | 0, _, _ => .error .outOfFuel
  | f + 1, e, st => do
    let b₁ ← checkP st .PLUS
    let b₂ ← checkP st .MINUS
    if b₁ || b₂ then do
      let (opTok, st₁) ← advanceP st
      let (rhs, st₂) ← parseFactorF f st₁
      parseTermLoopF f (Expr.binary e opTok.type rhs) st₂
    else pure (e, st)

/-- `Parser::parseFactor`: one primary, then the left-folding `*`/`/` loop. -/
def parseFactorF : Nat → PSt → Except PErr (Expr × PSt)
  | 0, _ => .error .outOfFuel
  | f + 1, st => do
    let (e, st₁) ← parsePrimaryF f st
    parseFactorLoopF f e st₁

/-- The `while (check(MULTIPLY) || check(DIVIDE))` loop of
`Parser::parseFactor`. -/
def parseFactorLoopF : Nat → Expr → PSt → Except PErr (Expr × PSt)
  | 0, _, _ => .error .outOfFuel
  | f + 1, e, st => do
    let b₁ ← checkP st .MULTIPLY
    let b₂ ← checkP st .DIVIDE
    if b₁ || b₂ then do
      let (opTok, st₁) ← advanceP st
      let (rhs, st₂) ← parsePrimaryF f st₁
      parseFactorLoopF f (Expr.binary e opTok.type rhs) st₂
    else pure (e, st)

/-- `Parser::parsePrimary`: number literal, identifier, or parenthesised
expression; otherwise the expected-expression error. -/
def parsePrimaryF : Nat → PSt → Except PErr (Expr × PSt)
  | 0, _ => .error .outOfFuel
  | f + 1, st => do
    let (mnum, st₁) ← matchTokP st .NUMBER
    if mnum then do
      let t ← previousP st₁
      pure (Expr.num t.value, st₁)
    else do
      let (mid, st₂) ← matchTokP st₁ .IDENTIFIER
      if mid then do
        let t ← previousP st₂
        pure (Expr.ident t.value, st₂)
      else do
        let (mlp, st₃) ← matchTokP st₂ .LPAREN
        if mlp then do
          let (e, st₄) ← parseExpressionF f st₃
          let (_, st₅) ← consumeP st₄ .RPAREN "Expected ) after expression"
          pure (e, st₅)
        else do
          let t ← peekP st₃
          .error (.msg ("Expected expression, got " ++ tokenTypeToString t.type))

end

/-- `Parser(tokens).parseFunction()`: run the entry point from cursor 0. -/
def parseFunction (ts : List Token) (fuel : Nat) : Except PErr (Stmt × PSt) :=
  parseFunctionF fuel ([], ts)

/-- A scope's symbol table: variable name to is-initialized flag, the
`std::unordered_map<std::string, bool> variables` of semantic_analyzer.hpp
(modelled as an association list with unique keys; insertion order is
irrelevant to lookups). -/
abbrev Frame := List (String × Bool)

/-- The scope chain reachable from `currentScope` through `parent` pointers;
the head is the innermost scope, the last element the root. -/
abbrev Chain := List Frame

/-- Semantic failures, the `SemanticError` throw sites of
semantic_analyzer.hpp, each recorded with the offending identifier:
`dup` = "already declared in this scope", `undecl` = "undeclared variable",
`uninit` = "uninitialized variable".  `unknownStmt` is the `default:` throw of
`analyzeStatement` (reached by a nested `FunctionDecl` node).  `nullScope` is
an embedding artifact marking a dereference of a null `currentScope`,
unreachable from `analyze`. -/
inductive SemErr where
  | dup (name : String)
  | undecl (name : String)
  | uninit (name : String)
  | unknownStmt
  | nullScope
  deriving DecidableEq

/-- `variables.find(name)` on one scope's map. -/
def frameLookup (fr : Frame) (n : String) : Option Bool := List.lookup n fr

/-- `Scope::isDeclared`: name present in this scope or any ancestor. -/
def isDeclaredC : Chain → String → Bool
  | [], _ => false
  | fr :: rest, n => if (frameLookup fr n).isSome then true else isDeclaredC rest n

/-- `Scope::isInitialized`: the flag at the innermost scope containing the
name; false when no scope in the chain contains it. -/
def isInitializedC : Chain → String → Bool
  | [], _ => false
  | fr :: rest, n =>
    match frameLookup fr n with
    | some b => b
    | none => isInitializedC rest n

/-- `Scope::declare` applied to the current (innermost) scope: fails when the
name is already a key of that scope's own map, otherwise inserts it with the
initialized flag false.  Ancestor scopes are not consulted. -/
def declareC : Chain → String → Except SemErr Chain
  | [], _ => .error .nullScope
  | fr :: rest, n =>
    if (frameLookup fr n).isSome then .error (.dup n)
    else .ok (((n, false) :: fr) :: rest)

/-- Flag update inside one scope's map. -/
def frameSet (fr : Frame) (n : String) : Frame :=
  fr.map fun p => if p.1 = n then (p.1, true) else p

/-- `Scope::initialize` (named `setInitializedC` here because `initialize` is
reserved in Lean): walk outward from the innermost scope and flip the flag in
the first scope owning the name; a name owned by no scope is left alone. -/
def setInitializedC : Chain → String → Chain
  | [], _ => []
  | fr :: rest, n =>
    if (frameLookup fr n).isSome then frameSet fr n :: rest
    else fr :: setInitializedC rest n

/-- `SemanticAnalyzer::analyzeExpression`: recurse through binary operands;
an identifier must be declared somewhere in the chain and initialized at the
scope where it is found; numbers are always valid.  (The C++ `default:` throw
is unreachable: the expression node kinds are closed.) -/
def analyzeExpression : Expr → Chain → Except SemErr Unit
  | .binary l _ r, ch => do
    analyzeExpression l ch
    analyzeExpression r ch
  | .ident n, ch =>
    if !(isDeclaredC ch n) then .error (.undecl n)
    else if !(isInitializedC ch n) then .error (.uninit n)
    else .ok ()
  | .num _, _ => .ok ()

mutual

/-- `SemanticAnalyzer::analyzeStatement`.  A `VarDecl` declares first, then
analyzes the initializer, then marks initialized.  An `IfStmt` analyzes the
condition in the current scope, then creates one child `blockScope` and
analyzes the then-branch and (when present) the else-branch both against that
same scope, then restores the previous scope.  A `Block` opens one child
scope around its statements.  The mutated chain is returned: popping a scope
keeps the (possibly mutated) parent frames, exactly as the C++ `currentScope =
prevScope` keeps the parent objects that inner `initialize` calls may have
written through. -/
def analyzeStatement : Stmt → Chain → Except SemErr Chain
  | .varDecl n ini, ch => do
    let ch₁ ← declareC ch n
    analyzeExpression ini ch₁
    pure (setInitializedC ch₁ n)
  | .ifStmt cond thenB elseB, ch => do
    analyzeExpression cond ch
    let ch₁ ← analyzeStatement thenB ([] :: ch)
    match elseB with
    | some e => do
      let ch₂ ← analyzeStatement e ch₁
      pure ch₂.tail
    | none => pure ch₁.tail
  | .block ss, ch => do
    let ch₁ ← analyzeStmtList ss ([] :: ch)
    pure ch₁.tail
  | .ret v, ch => do
    analyzeExpression v ch
    pure ch
  | .funcDecl _ _ _, _ => .error .unknownStmt

/-- The statement loop of the `BlockStmt` case of
`SemanticAnalyzer::analyzeStatement`. -/
def analyzeStmtList : List Stmt → Chain → Except SemErr Chain
  | [], ch => pure ch
  | s :: ss, ch => do
    let ch₁ ← analyzeStatement s ch
    analyzeStmtList ss ch₁

end

/-- The parameter loop of `SemanticAnalyzer::analyze`: declare each parameter
and immediately mark it initialized. -/
def declareParams : List String → Chain → Except SemErr Chain
  | [], ch => pure ch
  | p :: ps, ch => do
    let ch₁ ← declareC ch p
    declareParams ps (setInitializedC ch₁ p)

/-- `SemanticAnalyzer::analyze` with the constructor's root scope: a
`FunctionDecl` root gets a fresh function scope holding its parameters before
its body is analyzed; any other root is analyzed directly. -/
def analyze (root : Stmt) : Except SemErr Unit :=
  match root with
  | .funcDecl _ params body => do
    let ch₁ ← declareParams params ([] :: [[]])
    let _ ← analyzeStatement body ch₁
    pure ()
  | _ => do
    let _ ← analyzeStatement root [[]]
    pure ()

/-- Name lookup phrased as the spec words it (§3, §4.3): walk from the current
scope outward to the root and stop at the first scope containing the name,
yielding that scope's initialized flag.  Used to compare the analyzer's
`isDeclared`/`isInitialized` pair against the specified behaviour. -/
def chainLookup : Chain → String → Option Bool
  | [], _ => none
  | fr :: rest, n =>
    match frameLookup fr n with
    | some b => some b
    | none => chainLookup rest n

/-- `Parser::peek` written over the indexed token vector, exactly as in
parser.hpp: `tokens[current]` in bounds, and `tokens.back()` once the cursor
is at or past the end (`none` marks the out-of-bounds `back()` of an empty
vector). -/
def peekAt (ts : List Token) (i : Nat) : Option Token :=
  if i < ts.length then ts.get? i else ts.getLast?

/-- Source text of the spec's shadowing example (§8); braces escaped. -/
def shadowSource : String :=
  "int main ( ) \x7b int x = 1 ; if ( x > 0 ) \x7b int x = 2 ; return x ; \x7d return x ; \x7d"

/-- AST of the shadowing example, as the parser builds it. -/
def shadowAst : Stmt :=
  .funcDecl "main" []
    (.block
      [.varDecl "x" (.num "1"),
       .ifStmt (.binary (.ident "x") .GREATER (.num "0"))
         (.block [.varDecl "x" (.num "2"), .ret (.ident "x")]) none,
       .ret (.ident "x")])

/-- A token vector whose final element is the `EOF_TOKEN` sentinel — the shape
of every successful `tokenize` output, and the precondition of the parser's
bounds-safety claim. -/
def EofTerminated (ts : List Token) : Prop :=
  ∃ e, ts.getLast? = some e ∧ e.type = .EOF_TOKEN

/-- Bounds-safe outcome of a parser computation over the token vector `A`:
a success leaves the (cursor-moved) state over the same vector, and a failure
is never the out-of-bounds marker. -/
def GoodRes {α : Type} (A : List Token) : Except PErr (α × PSt) → Prop
  | .ok (_, st') => allToks st' = A
  | .error e => e ≠ .bounds

/-- Bounds safety of all parser functions at one fuel value: from any cursor
state over a nonempty EOF-terminated token vector, no parser function ever
performs an out-of-bounds access. -/
def AllGood (f : Nat) : Prop :=
  ∀ st : PSt, EofTerminated (allToks st) →
    GoodRes (allToks st) (parseFunctionF f st) ∧
    GoodRes (allToks st) (parseBlockF f st) ∧
    GoodRes (allToks st) (parseBlockLoopF f st) ∧
    GoodRes (allToks st) (parseStatementF f st) ∧
    (∀ c tb, GoodRes (allToks st) (parseElseOptF f c tb st)) ∧
    GoodRes (allToks st) (parseExpressionF f st) ∧
    GoodRes (allToks st) (parseComparisonF f st) ∧
    (∀ e, GoodRes (allToks st) (parseCompLoopF f e st)) ∧
    GoodRes (allToks st) (parseTermF f st) ∧
    (∀ e, GoodRes (allToks st) (parseTermLoopF f e st)) ∧
    GoodRes (allToks st) (parseFactorF f st) ∧
    (∀ e, GoodRes (allToks st) (parseFactorLoopF f e st)) ∧
    GoodRes (allToks st) (parsePrimaryF f st)

/-- Node count of an expression tree (each `BinaryExpr`, `NumberLiteral`,
`Identifier` is one node). -/
def nodeCountE : Expr → Nat
  | .binary l _ r => 1 + nodeCountE l + nodeCountE r
  | .num _ => 1
  | .ident _ => 1

mutual

/-- Node count of a statement tree. -/
def nodeCountS : Stmt → Nat
  | .funcDecl _ _ body => 1 + nodeCountS body
  | .varDecl _ ini => 1 + nodeCountE ini
  | .ret e => 1 + nodeCountE e
  | .ifStmt c t e => 1 + nodeCountE c + nodeCountS t + nodeCountOpt e
  | .block ss => 1 + nodeCountL ss

/-- Node count of an optional else-branch. -/
def nodeCountOpt : Option Stmt → Nat
  | none => 0
  | some s => nodeCountS s

/-- Node count of a statement list. -/
def nodeCountL : List Stmt → Nat
  | [] => 0
  | s :: ss => nodeCountS s + nodeCountL ss

end

mutual

/-- Derivations of the grammar rule `primary := NUMBER | IDENT | '('
expression ')'` (spec §4.2) over token sequences; the nonterminals `NUMBER`
and `IDENT` stand for any token of that kind. -/
inductive GPrimary : List Token → Type where
  | num (t : Token) : t.type = .NUMBER → GPrimary [t]
  | ident (t : Token) : t.type = .IDENTIFIER → GPrimary [t]
  | paren (l r : Token) (ts : List Token) :
      l.type = .LPAREN → r.type = .RPAREN → GExpr ts → GPrimary (l :: (ts ++ [r]))

/-- Derivations of the operator-operand repetition `(('*'|'/') primary)*`. -/
inductive GFactorSegs : List Token → Type where
  | nil : GFactorSegs []
  | cons (o : Token) (p rest : List Token) :
      o.type = .MULTIPLY ∨ o.type = .DIVIDE →
      GPrimary p → GFactorSegs rest → GFactorSegs (o :: (p ++ rest))

/-- Derivations of `factor := primary (('*'|'/') primary)*`. -/
inductive GFactor : List Token → Type where
  | mk (p segs : List Token) : GPrimary p → GFactorSegs segs → GFactor (p ++ segs)

/-- Derivations of the repetition `(('+'|'-') factor)*`. -/
inductive GTermSegs : List Token → Type where
  | nil : GTermSegs []
  | cons (o : Token) (p rest : List Token) :
      o.type = .PLUS ∨ o.type = .MINUS →
      GFactor p → GTermSegs rest → GTermSegs (o :: (p ++ rest))

/-- Derivations of `term := factor (('+'|'-') factor)*`. -/
inductive GTerm : List Token → Type where
  | mk (p segs : List Token) : GFactor p → GTermSegs segs → GTerm (p ++ segs)

/-- Derivations of the repetition `(cmpop term)*` over the six comparison
operators. -/
inductive GCompSegs : List Token → Type where
  | nil : GCompSegs []
  | cons (o : Token) (p rest : List Token) :
      o.type = .GREATER ∨ o.type = .GREATER_EQUAL ∨ o.type = .LESS ∨
        o.type = .LESS_EQUAL ∨ o.type = .EQUAL ∨ o.type = .NOT_EQUAL →
      GTerm p → GCompSegs rest → GCompSegs (o :: (p ++ rest))

/-- Derivations of `expression := comparison := term (cmpop term)*`. -/
inductive GExpr : List Token → Type where
  | mk (p segs : List Token) : GTerm p → GCompSegs segs → GExpr (p ++ segs)

end

mutual

/-- Derivations of the grammar rule `statement` (spec §4.2): return
statement, if without else, if with else, variable declaration, or block. -/
inductive GStmt : List Token → Type where
  | ret (r s : Token) (e : List Token) :
      r.type = .RETURN → s.type = .SEMICOLON → GExpr e → GStmt (r :: (e ++ [s]))
  | ifThen (i l rp : Token) (c s : List Token) :
      i.type = .IF → l.type = .LPAREN → rp.type = .RPAREN →
      GExpr c → GStmt s → GStmt (i :: l :: (c ++ rp :: s))
  | ifElse (i l rp el : Token) (c s₁ s₂ : List Token) :
      i.type = .IF → l.type = .LPAREN → rp.type = .RPAREN → el.type = .ELSE →
      GExpr c → GStmt s₁ → GStmt s₂ →
      GStmt (i :: l :: (c ++ rp :: (s₁ ++ el :: s₂)))
  | decl (k x a s : Token) (e : List Token) :
      k.type = .INT → x.type = .IDENTIFIER → a.type = .ASSIGN →
      s.type = .SEMICOLON → GExpr e → GStmt (k :: x :: a :: (e ++ [s]))
  | blk (ts : List Token) : GBlock ts → GStmt ts

/-- Derivations of `block := '{' statement* '}'`. -/
inductive GBlock : List Token → Type where
  | mk (l r : Token) (ss : List Token) :
      l.type = .LBRACE → r.type = .RBRACE → GStmts ss → GBlock (l :: (ss ++ [r]))

/-- Derivations of the repetition `statement*`. -/
inductive GStmts : List Token → Type where
  | nil : GStmts []
  | cons (s rest : List Token) : GStmt s → GStmts rest → GStmts (s ++ rest)

end

/-- Derivations of `function := 'int' IDENT '(' ')' block`. -/
inductive GFunction : List Token → Type where
  | mk (k n l r : Token) (b : List Token) :
      k.type = .INT → n.type = .IDENTIFIER → l.type = .LPAREN → r.type = .RPAREN →
      GBlock b → GFunction (k :: n :: l :: r :: b)

/-- A pending `else STATEMENT` continuation chunk: the `else` token together
with a derivation of the statement that follows it.  Used to state parser
completeness in the presence of the dangling-else ambiguity: a statement
span may be followed by a list of such chunks, and the parser may absorb a
prefix of them into the statement it builds. -/
def ElseChunk : Type := Token × (Σ ts : List Token, GStmt ts)

/-- Token span of one pending else chunk. -/
def chunkToks (ck : ElseChunk) : List Token := ck.1 :: ck.2.1

/-- Token span of a list of pending else chunks. -/
def chunksToks (L : List ElseChunk) : List Token := (L.map chunkToks).flatten

/-- Well-formedness of a pending chunk: its lead token is `else`. -/
def chunkGood (ck : ElseChunk) : Prop := ck.1.type = .ELSE

/-- The continuation after a statement is nonempty and does not begin with
`else` (so the parser's optional-else probe fails there). -/
def headNotElse (rest : List Token) : Prop :=
  ∃ t r', rest = t :: r' ∧ t.type ≠ .ELSE

/-- Token kinds that cannot continue any expression-level loop of the
parser: none of the ten binary-operator kinds. -/
def NotExprOp (ty : TokenType) : Prop :=
  ty ≠ .MULTIPLY ∧ ty ≠ .DIVIDE ∧ ty ≠ .PLUS ∧ ty ≠ .MINUS ∧
  ty ≠ .GREATER ∧ ty ≠ .GREATER_EQUAL ∧ ty ≠ .LESS ∧ ty ≠ .LESS_EQUAL ∧
  ty ≠ .EQUAL ∧ ty ≠ .NOT_EQUAL

/-- Continuation acceptable after a factor: nonempty and not starting with a
multiplicative operator. -/
def FactorFollow (rest : List Token) : Prop :=
  ∃ t r', rest = t :: r' ∧ t.type ≠ .MULTIPLY ∧ t.type ≠ .DIVIDE

/-- Continuation acceptable after a term: nonempty and not starting with a
multiplicative or additive operator. -/
def TermFollow (rest : List Token) : Prop :=
  ∃ t r', rest = t :: r' ∧ t.type ≠ .MULTIPLY ∧ t.type ≠ .DIVIDE ∧
    t.type ≠ .PLUS ∧ t.type ≠ .MINUS

/-- Continuation acceptable after a whole expression: nonempty and not
starting with any binary operator (in every grammar position this is a `;`,
`)`, statement keyword, brace or the end-of-input marker). -/
def ExprFollow (rest : List Token) : Prop :=
  ∃ t r', rest = t :: r' ∧ NotExprOp t.type

/-- The C1 witness program: a function whose body uses a comparison
operator. -/
def c1Src : String := "int main ( ) \x7b return 1 >= 2 ; \x7d"

/-- The tokens of `c1Src` up to (excluding) the trailing EOF token. -/
def c1Fts : List Token :=
  [⟨.INT, "int", 1, 1⟩, ⟨.IDENTIFIER, "main", 1, 5⟩, ⟨.LPAREN, "(", 1, 10⟩,
   ⟨.RPAREN, ")", 1, 12⟩, ⟨.LBRACE, "\x7b", 1, 14⟩, ⟨.RETURN, "return", 1, 16⟩,
   ⟨.NUMBER, "1", 1, 23⟩, ⟨.GREATER_EQUAL, ">=", 1, 25⟩, ⟨.NUMBER, "2", 1, 28⟩,
   ⟨.SEMICOLON, ";", 1, 30⟩, ⟨.RBRACE, "\x7d", 1, 32⟩]

/-- A grammar derivation of the C1 witness program tokens as `function`. -/
def c1Deriv : GFunction c1Fts :=
  GFunction.mk ⟨.INT, "int", 1, 1⟩ ⟨.IDENTIFIER, "main", 1, 5⟩
    ⟨.LPAREN, "(", 1, 10⟩ ⟨.RPAREN, ")", 1, 12⟩
    [⟨.LBRACE, "\x7b", 1, 14⟩, ⟨.RETURN, "return", 1, 16⟩, ⟨.NUMBER, "1", 1, 23⟩,
     ⟨.GREATER_EQUAL, ">=", 1, 25⟩, ⟨.NUMBER, "2", 1, 28⟩, ⟨.SEMICOLON, ";", 1, 30⟩,
     ⟨.RBRACE, "\x7d", 1, 32⟩]
    rfl rfl rfl rfl
    (GBlock.mk ⟨.LBRACE, "\x7b", 1, 14⟩ ⟨.RBRACE, "\x7d", 1, 32⟩
      [⟨.RETURN, "return", 1, 16⟩, ⟨.NUMBER, "1", 1, 23⟩,
       ⟨.GREATER_EQUAL, ">=", 1, 25⟩, ⟨.NUMBER, "2", 1, 28⟩,
       ⟨.SEMICOLON, ";", 1, 30⟩]
      rfl rfl
      (GStmts.cons
        [⟨.RETURN, "return", 1, 16⟩, ⟨.NUMBER, "1", 1, 23⟩,
         ⟨.GREATER_EQUAL, ">=", 1, 25⟩, ⟨.NUMBER, "2", 1, 28⟩,
         ⟨.SEMICOLON, ";", 1, 30⟩]
        []
        (GStmt.ret ⟨.RETURN, "return", 1, 16⟩ ⟨.SEMICOLON, ";", 1, 30⟩
          [⟨.NUMBER, "1", 1, 23⟩, ⟨.GREATER_EQUAL, ">=", 1, 25⟩,
           ⟨.NUMBER, "2", 1, 28⟩]
          rfl rfl
          (GExpr.mk [⟨.NUMBER, "1", 1, 23⟩]
            [⟨.GREATER_EQUAL, ">=", 1, 25⟩, ⟨.NUMBER, "2", 1, 28⟩]
            (GTerm.mk [⟨.NUMBER, "1", 1, 23⟩] []
              (GFactor.mk [⟨.NUMBER, "1", 1, 23⟩] []
                (GPrimary.num ⟨.NUMBER, "1", 1, 23⟩ rfl) GFactorSegs.nil)
              GTermSegs.nil)
            (GCompSegs.cons ⟨.GREATER_EQUAL, ">=", 1, 25⟩
              [⟨.NUMBER, "2", 1, 28⟩] []
              (Or.inr (Or.inl rfl))
              (GTerm.mk [⟨.NUMBER, "2", 1, 28⟩] []
                (GFactor.mk [⟨.NUMBER, "2", 1, 28⟩] []
                  (GPrimary.num ⟨.NUMBER, "2", 1, 28⟩ rfl) GFactorSegs.nil)
                GTermSegs.nil)
              GCompSegs.nil)))
        GStmts.nil))

theorem frameLookup_nil (n : String) : frameLookup [] n = none := rfl

theorem frameLookup_cons_self (n : String) (b : Bool) (fr : Frame) :
    frameLookup ((n, b) :: fr) n = some b := by
  simp [frameLookup, List.lookup]

/-- C2: the spec-modelled lexer recognises each of `==`, `!=`, `<=`, `>=` as
one single two-character token whenever the pair occurs at the cursor (first
conjunct: a single `nextToken` call consumes both characters and yields one
token of the combined kind, for every continuation of the input and every
position), and tokenizing `"x >= 1"` yields exactly an `Identifier`, one
`GREATER_EQUAL` operator token and a `Number` before the end-of-input
marker. -/
theorem claim_C2 :
    (∀ (rest : List Char) (l c : Nat),
        nextTokenFull ('>' :: '=' :: rest) l c =
          .ok (⟨.GREATER_EQUAL, ">=", l, c⟩, rest, l, c + 2) ∧
        nextTokenFull ('<' :: '=' :: rest) l c =
          .ok (⟨.LESS_EQUAL, "<=", l, c⟩, rest, l, c + 2) ∧
        nextTokenFull ('=' :: '=' :: rest) l c =
          .ok (⟨.EQUAL, "==", l, c⟩, rest, l, c + 2) ∧
        nextTokenFull ('!' :: '=' :: rest) l c =
          .ok (⟨.NOT_EQUAL, "!=", l, c⟩, rest, l, c + 2)) ∧
    tokenizeFull "x >= 1" =
      .ok [⟨.IDENTIFIER, "x", 1, 1⟩, ⟨.GREATER_EQUAL, ">=", 1, 3⟩,
           ⟨.NUMBER, "1", 1, 6⟩, ⟨.EOF_TOKEN, "", 1, 7⟩] := by
  exact ⟨fun rest l c => ⟨rfl, rfl, rfl, rfl⟩, rfl⟩

/-- C3 counterexample: the analyzer uses one shared scope for both branches of
an if/else, so a program declaring `y` directly (not inside a nested block) in
both branches fails with the duplicate-declaration error, contradicting the
claim that the else-branch gets a fresh sibling scope in which such a
declaration succeeds. -/
theorem claim_C3_counterexample :
    analyze (.funcDecl "main" []
      (.block
        [.varDecl "c" (.num "1"),
         .ifStmt (.ident "c") (.varDecl "y" (.num "1"))
           (some (.varDecl "y" (.num "2")))])) = .error (.dup "y") := by
  rfl

/-- C3 amended: for every If statement with an else-branch, the analyzer
creates one child scope of the current scope and analyzes the then-branch and
then the else-branch both in that same scope before restoring the previous
scope.  Consequently declaring the same name directly in both branches is a
DuplicateDeclaration error (first conjunct), while block-statement branches
each open their own nested scope, so declaring the same name inside both
blocks succeeds and leaves the outer chain unchanged (second conjunct). -/
theorem claim_C3_amended :
    (∀ (y v₁ v₂ : String) (ch : Chain) (cond : Expr),
        analyzeExpression cond ch = .ok () →
        analyzeStatement
          (.ifStmt cond (.varDecl y (.num v₁)) (some (.varDecl y (.num v₂)))) ch
          = .error (.dup y)) ∧
    (∀ (y v₁ v₂ : String) (ch : Chain) (cond : Expr),
        analyzeExpression cond ch = .ok () →
        analyzeStatement
          (.ifStmt cond (.block [.varDecl y (.num v₁)])
            (some (.block [.varDecl y (.num v₂)]))) ch
          = .ok ch) := by
  constructor
  · intro y v₁ v₂ ch cond h
    simp [analyzeStatement, h, declareC, analyzeExpression, setInitializedC,
      frameLookup_nil, frameLookup_cons_self, frameSet, frameLookup,
      List.lookup, Bind.bind, Except.bind, Pure.pure, Except.pure]
  · intro y v₁ v₂ ch cond h
    simp [analyzeStatement, analyzeStmtList, h, declareC, analyzeExpression,
      setInitializedC, frameLookup_nil, frameLookup_cons_self, frameSet,
      frameLookup, List.lookup, Bind.bind, Except.bind, Pure.pure, Except.pure]

/-- C3 amended, witness: the hypotheses of both conjuncts are dischargeable at
a concrete input (condition `1`, name `y`). -/
theorem claim_C3_amended_witness :
    analyzeStatement
      (.ifStmt (.num "0") (.varDecl "y" (.num "1")) (some (.varDecl "y" (.num "2"))))
      [[]] = .error (.dup "y") ∧
    analyzeStatement
      (.ifStmt (.num "0") (.block [.varDecl "y" (.num "1")])
        (some (.block [.varDecl "y" (.num "2")]))) [[]] = .ok [[]] :=
  ⟨claim_C3_amended.1 "y" "1" "2" [[]] (.num "0") rfl,
   claim_C3_amended.2 "y" "1" "2" [[]] (.num "0") rfl⟩

theorem isDeclaredC_eq_chainLookup (ch : Chain) (n : String) :
    isDeclaredC ch n = (chainLookup ch n).isSome := by
  induction ch with
  | nil => rfl
  | cons fr rest ih =>
    simp only [isDeclaredC, chainLookup]
    cases h : frameLookup fr n <;> simp [h, ih]

theorem isInitializedC_eq_chainLookup (ch : Chain) (n : String) :
    isInitializedC ch n = (chainLookup ch n).getD false := by
  induction ch with
  | nil => rfl
  | cons fr rest ih =>
    simp only [isInitializedC, chainLookup]
    cases h : frameLookup fr n <;> simp [h, ih]

/-- C4: analyzing an identifier expression agrees exactly with the outward
walk that stops at the first scope containing the name (`chainLookup`,
written from the spec): no scope has the name → UndeclaredVariable; the first
scope that has it holds flag false → UninitializedVariable; flag true →
accepted. -/
theorem claim_C4 (ch : Chain) (n : String) :
    analyzeExpression (.ident n) ch =
      match chainLookup ch n with
      | none => .error (.undecl n)
      | some false => .error (.uninit n)
      | some true => .ok () := by
  simp only [analyzeExpression, isDeclaredC_eq_chainLookup,
    isInitializedC_eq_chainLookup]
  cases h : chainLookup ch n with
  | none => simp
  | some b => cases b <;> simp

/-- C5: `declare` on the current scope fails with DuplicateDeclaration exactly
when the name is already a key of the current (innermost) scope's own map,
regardless of the ancestor frames (first conjunct: the iff, for every chain);
when the name is absent from the current scope it succeeds even if ancestors
hold it (second conjunct); and the spec's shadowing example program parses and
analyzes successfully end to end (remaining conjuncts). -/
theorem claim_C5 :
    (∀ (fr : Frame) (rest : List Frame) (n : String),
        (declareC (fr :: rest) n = .error (.dup n) ↔ (frameLookup fr n).isSome) ∧
        ((frameLookup fr n).isNone →
          declareC (fr :: rest) n = .ok (((n, false) :: fr) :: rest))) ∧
    (∃ ts, tokenizeFull shadowSource = .ok ts ∧
      ∃ st, parseFunction ts 50 = .ok (shadowAst, st)) ∧
    analyze shadowAst = .ok () := by
  refine ⟨fun fr rest n => ⟨?_, ?_⟩, ⟨_, rfl, _, rfl⟩, rfl⟩
  · cases h : (frameLookup fr n).isSome <;> simp [declareC, h]
  · intro h
    simp [declareC, Option.isNone_iff_eq_none.mp h]

/-- C5 witness: the second conjunct's hypothesis discharged concretely — `x`
is absent from the innermost scope but present in an ancestor, and declare
succeeds (shadowing). -/
theorem claim_C5_witness :
    (frameLookup [] "x").isNone ∧
    declareC ([] :: [[("x", true)]]) "x" = .ok ([("x", false)] :: [[("x", true)]]) :=
  ⟨rfl, (claim_C5.1 [] [[("x", true)]] "x").2 rfl⟩

/-- C6: a variable declaration declares the name (flag false) before its
initializer is analyzed, so an initializer referencing the declared name
itself fails with UninitializedVariable — not UndeclaredVariable — for every
current scope not already containing the name. -/
theorem claim_C6 (x : String) (fr : Frame) (rest : List Frame)
    (h : frameLookup fr x = none) :
    analyzeStatement (.varDecl x (.ident x)) (fr :: rest) =
      .error (.uninit x) := by
  simp [analyzeStatement, declareC, h, analyzeExpression, isDeclaredC,
    isInitializedC, frameLookup_cons_self, Bind.bind, Except.bind,
    Pure.pure, Except.pure, Functor.map, Except.map]

/-- C6 witness: the fresh-scope hypothesis discharged at the concrete program
`int x = x;` analyzed in an empty scope. -/
theorem claim_C6_witness :
    frameLookup [] "x" = none ∧
    analyzeStatement (.varDecl "x" (.ident "x")) [[]] = .error (.uninit "x") :=
  ⟨rfl, claim_C6 "x" [] [] rfl⟩

/-- C7: the token sequence of `"1 + 2 * 3"` parses to the tree
`+ (1, * (2, 3))` — multiplication binds tighter — and never to the
left-multiplication tree `* (+ (1, 2), 3)`. -/
theorem claim_C7 :
    (∃ ts st, tokenizeSrc "1 + 2 * 3" = .ok ts ∧
      parseExpressionF 10 ([], ts) =
        .ok (.binary (.num "1") .PLUS (.binary (.num "2") .MULTIPLY (.num "3")), st)) ∧
    ∀ ts st, tokenizeSrc "1 + 2 * 3" = .ok ts →
      parseExpressionF 10 ([], ts) ≠
        .ok (.binary (.binary (.num "1") .PLUS (.num "2")) .MULTIPLY (.num "3"), st) := by
  constructor
  · exact ⟨_, _, rfl, rfl⟩
  · intro ts st hts
    have h : ts = [⟨.NUMBER, "1", 1, 1⟩, ⟨.PLUS, "+", 1, 3⟩, ⟨.NUMBER, "2", 1, 5⟩,
        ⟨.MULTIPLY, "*", 1, 7⟩, ⟨.NUMBER, "3", 1, 9⟩, ⟨.EOF_TOKEN, "", 1, 10⟩] := by
      have h0 : tokenizeSrc "1 + 2 * 3" = .ok [⟨.NUMBER, "1", 1, 1⟩,
          ⟨.PLUS, "+", 1, 3⟩, ⟨.NUMBER, "2", 1, 5⟩, ⟨.MULTIPLY, "*", 1, 7⟩,
          ⟨.NUMBER, "3", 1, 9⟩, ⟨.EOF_TOKEN, "", 1, 10⟩] := rfl
      rw [h0] at hts
      exact ((Except.ok.injEq _ _).mp hts).symm
    subst h
    intro hbad
    have h1 : parseExpressionF 10
        (([], [⟨.NUMBER, "1", 1, 1⟩, ⟨.PLUS, "+", 1, 3⟩, ⟨.NUMBER, "2", 1, 5⟩,
          ⟨.MULTIPLY, "*", 1, 7⟩, ⟨.NUMBER, "3", 1, 9⟩,
          ⟨.EOF_TOKEN, "", 1, 10⟩]) : PSt) =
        .ok (.binary (.num "1") .PLUS (.binary (.num "2") .MULTIPLY (.num "3")),
          ([⟨.NUMBER, "3", 1, 9⟩, ⟨.MULTIPLY, "*", 1, 7⟩, ⟨.NUMBER, "2", 1, 5⟩,
            ⟨.PLUS, "+", 1, 3⟩, ⟨.NUMBER, "1", 1, 1⟩], [⟨.EOF_TOKEN, "", 1, 10⟩])) := rfl
    rw [h1] at hbad
    simp at hbad

/-- Every successful run of the `tokenize` loop returns a list whose final
element is an `EOF_TOKEN` preceded only by non-EOF tokens (for any `nextToken`
implementation). -/
theorem tokenizeLoop_shape (next : List Char → Nat → Nat → Except LexErr (Token × List Char × Nat × Nat)) :
    ∀ (f : Nat) (inp : List Char) (l c : Nat) (ts : List Token),
      tokenizeLoop next f inp l c = .ok ts →
      ∃ ts' e, ts = ts' ++ [e] ∧ e.type = .EOF_TOKEN ∧
        ∀ t ∈ ts', t.type ≠ .EOF_TOKEN := by
  intro f
  induction f with
  | zero => intro inp l c ts h; exact absurd h (by simp [tokenizeLoop])
  | succ f ih =>
    intro inp l c ts h
    simp only [tokenizeLoop] at h
    cases hn : next inp l c with
    | error e => rw [hn] at h; exact absurd h (by simp)
    | ok r =>
      obtain ⟨tok, rem, l', c'⟩ := r
      rw [hn] at h
      dsimp only at h
      by_cases he : tok.type = .EOF_TOKEN
      · rw [if_pos he] at h
        obtain rfl : [tok] = ts := by
          simpa using h
        exact ⟨[], tok, rfl, he, by simp⟩
      · rw [if_neg he] at h
        cases hr : tokenizeLoop next f rem l' c' with
        | error e => rw [hr] at h; exact absurd h (by simp)
        | ok ts₀ =>
          rw [hr] at h
          obtain rfl : tok :: ts₀ = ts := by simpa using h
          obtain ⟨ts', e, rfl, hee, hne⟩ := ih rem l' c' ts₀ hr
          refine ⟨tok :: ts', e, rfl, hee, ?_⟩
          intro t ht
          rcases List.mem_cons.mp ht with rfl | ht
          · exact he
          · exact hne t ht

/-- C9: every successful `tokenize` output ends in an `EOF_TOKEN` that is its
unique EOF element, and the parser's `peek` at any read position at or past
the end of the sequence returns that same token rather than failing. -/
theorem claim_C9 (s : String) (ts : List Token) (h : tokenizeSrc s = .ok ts) :
    ∃ e, ts.getLast? = some e ∧ e.type = .EOF_TOKEN ∧
      (ts.filter fun t => decide (t.type = .EOF_TOKEN)).length = 1 ∧
      ∀ i, ts.length ≤ i → peekAt ts i = some e := by
  obtain ⟨ts', e, rfl, hee, hne⟩ := tokenizeLoop_shape nextTokenSrc _ _ _ _ _ h
  refine ⟨e, List.getLast?_concat _, hee, ?_, ?_⟩
  · rw [List.filter_append]
    have h1 : ts'.filter (fun t => decide (t.type = .EOF_TOKEN)) = [] := by
      rw [List.filter_eq_nil_iff]
      intro t ht
      simpa using hne t ht
    rw [h1]
    simp [hee]
  · intro i hi
    rw [peekAt, if_neg (by omega), List.getLast?_concat]

/-- C8: every binary-operator precedence level of the parser is
left-associative.  The first three conjuncts show, for each precedence loop
(additive, multiplicative, comparison), that whenever the token under the
cursor is an operator of that level, one loop iteration makes the previously
built expression the LEFT operand of the new `BinaryExpr` built around the
operand parsed at the next-higher level, then continues folding.  The last
conjunct instantiates this: `"10 - 3 - 2"` parses to the left-leaning tree
`-( -(10, 3), 2)`. -/
theorem claim_C8 :
    (∀ (f : Nat) (e : Expr) (cs : List Token) (t : Token) (r : List Token),
        t.type = .PLUS ∨ t.type = .MINUS →
        parseTermLoopF (f + 1) e (cs, t :: r) =
          match parseFactorF f (t :: cs, r) with
          | .ok (rhs, st₂) => parseTermLoopF f (.binary e t.type rhs) st₂
          | .error er => .error er) ∧
    (∀ (f : Nat) (e : Expr) (cs : List Token) (t : Token) (r : List Token),
        t.type = .MULTIPLY ∨ t.type = .DIVIDE →
        parseFactorLoopF (f + 1) e (cs, t :: r) =
          match parsePrimaryF f (t :: cs, r) with
          | .ok (rhs, st₂) => parseFactorLoopF f (.binary e t.type rhs) st₂
          | .error er => .error er) ∧
    (∀ (f : Nat) (e : Expr) (cs : List Token) (t : Token) (r : List Token),
        t.type = .GREATER ∨ t.type = .GREATER_EQUAL ∨ t.type = .LESS ∨
          t.type = .LESS_EQUAL ∨ t.type = .EQUAL ∨ t.type = .NOT_EQUAL →
        parseCompLoopF (f + 1) e (cs, t :: r) =
          match parseTermF f (t :: cs, r) with
          | .ok (rhs, st₂) => parseCompLoopF f (.binary e t.type rhs) st₂
          | .error er => .error er) ∧
    (∃ ts st, tokenizeSrc "10 - 3 - 2" = .ok ts ∧
      parseExpressionF 10 ([], ts) =
        .ok (.binary (.binary (.num "10") .MINUS (.num "3")) .MINUS (.num "2"),
          st)) := by
  refine ⟨?_, ?_, ?_, ⟨_, _, rfl, rfl⟩⟩
  · intro f e cs t r hop
    rcases hop with h | h <;>
      simp only [parseTermLoopF, checkP, isAtEndP, peekP, advanceP, h,
        Bind.bind, Except.bind, Pure.pure, Except.pure, reduceCtorEq,
        if_false, if_true, reduceIte] <;>
      cases parseFactorF f (t :: cs, r) <;> simp
  · intro f e cs t r hop
    rcases hop with h | h <;>
      simp only [parseFactorLoopF, checkP, isAtEndP, peekP, advanceP, h,
        Bind.bind, Except.bind, Pure.pure, Except.pure, reduceCtorEq,
        if_false, if_true, reduceIte] <;>
      cases parsePrimaryF f (t :: cs, r) <;> simp
  · intro f e cs t r hop
    rcases hop with h | h | h | h | h | h <;>
      simp only [parseCompLoopF, checkP, isAtEndP, peekP, advanceP, h,
        Bind.bind, Except.bind, Pure.pure, Except.pure, reduceCtorEq,
        if_false, if_true, reduceIte] <;>
      cases parseTermF f (t :: cs, r) <;> simp

/-- C8 witness: one fold step of the additive loop discharged at a concrete
state (previously built expression `10`, a `-` operator under the cursor). -/
theorem claim_C8_witness :
    parseTermLoopF 4 (.num "10") ([], [⟨.MINUS, "-", 1, 4⟩, ⟨.NUMBER, "3", 1, 6⟩,
        ⟨.EOF_TOKEN, "", 1, 7⟩]) =
      match parseFactorF 3 ([⟨.MINUS, "-", 1, 4⟩],
          [⟨.NUMBER, "3", 1, 6⟩, ⟨.EOF_TOKEN, "", 1, 7⟩]) with
      | .ok (rhs, st₂) => parseTermLoopF 3 (.binary (.num "10") .MINUS rhs) st₂
      | .error er => .error er :=
  claim_C8.1 3 (.num "10") [] ⟨.MINUS, "-", 1, 4⟩
    [⟨.NUMBER, "3", 1, 6⟩, ⟨.EOF_TOKEN, "", 1, 7⟩] (Or.inr rfl)

/-- C9 witness: the tokenize-success hypothesis discharged at the concrete
source `"1 + 2"`. -/
theorem claim_C9_witness :
    tokenizeSrc "1 + 2" =
      .ok [⟨.NUMBER, "1", 1, 1⟩, ⟨.PLUS, "+", 1, 3⟩, ⟨.NUMBER, "2", 1, 5⟩,
           ⟨.EOF_TOKEN, "", 1, 6⟩] ∧
    ∃ e, ([⟨.NUMBER, "1", 1, 1⟩, ⟨.PLUS, "+", 1, 3⟩, ⟨.NUMBER, "2", 1, 5⟩,
           (⟨.EOF_TOKEN, "", 1, 6⟩ : Token)] : List Token).getLast? = some e ∧
      e.type = .EOF_TOKEN ∧
      (([⟨.NUMBER, "1", 1, 1⟩, ⟨.PLUS, "+", 1, 3⟩, ⟨.NUMBER, "2", 1, 5⟩,
           (⟨.EOF_TOKEN, "", 1, 6⟩ : Token)] : List Token).filter
        fun t => decide (t.type = .EOF_TOKEN)).length = 1 ∧
      ∀ i, ([⟨.NUMBER, "1", 1, 1⟩, ⟨.PLUS, "+", 1, 3⟩, ⟨.NUMBER, "2", 1, 5⟩,
           (⟨.EOF_TOKEN, "", 1, 6⟩ : Token)] : List Token).length ≤ i →
        peekAt [⟨.NUMBER, "1", 1, 1⟩, ⟨.PLUS, "+", 1, 3⟩, ⟨.NUMBER, "2", 1, 5⟩,
           ⟨.EOF_TOKEN, "", 1, 6⟩] i = some e :=
  ⟨rfl, claim_C9 "1 + 2" _ rfl⟩

theorem allToks_push (cs : List Token) (t : Token) (r : List Token) :
    allToks (t :: cs, r) = allToks (cs, t :: r) := by
  simp [allToks]

theorem goodRes_ok {α : Type} (A : List Token) (x : α) (st' : PSt)
    (h : allToks st' = A) : GoodRes A (.ok (x, st')) := h

theorem goodRes_msg {α : Type} (A : List Token) (s : String) :
    GoodRes (α := α) A (.error (.msg s)) := by
  simp [GoodRes]

theorem goodRes_fuel {α : Type} (A : List Token) :
    GoodRes (α := α) A (.error .outOfFuel) := by
  simp [GoodRes]

theorem goodRes_wrapErr {α : Type} (A : List Token) (pre : String)
    (r : Except PErr (α × PSt)) (h : GoodRes A r) :
    GoodRes A (wrapErr pre r) := by
  cases r with
  | ok x => exact h
  | error e =>
    cases e with
    | msg s => exact goodRes_msg A _
    | bounds => exact absurd rfl (h)
    | outOfFuel => exact goodRes_fuel A

theorem goodRes_congr {α : Type} (A B : List Token) (r : Except PErr (α × PSt))
    (hAB : A = B) (h : GoodRes A r) : GoodRes B r := hAB ▸ h

theorem goodRes_bind {α β : Type} (A : List Token) (r : Except PErr (α × PSt))
    (k : α × PSt → Except PErr (β × PSt))
    (h₁ : GoodRes A r)
    (h₂ : ∀ x st', allToks st' = A → GoodRes A (k (x, st'))) :
    GoodRes A (r >>= k) := by
  cases r with
  | ok p =>
    obtain ⟨x, st'⟩ := p
    exact h₂ x st' h₁
  | error e => exact h₁

theorem peekP_spec (st : PSt) (h : EofTerminated (allToks st)) :
    ∃ t, peekP st = .ok t ∧ (st.2 = [] → t.type = .EOF_TOKEN) := by
  obtain ⟨cs, r⟩ := st
  cases r with
  | cons t r' => exact ⟨t, rfl, by simp⟩
  | nil =>
    obtain ⟨e, he, het⟩ := h
    cases cs with
    | nil => simp [allToks] at he
    | cons p cs' =>
      refine ⟨p, rfl, fun _ => ?_⟩
      have hp : (allToks (p :: cs', [])).getLast? = some p := by
        simp [allToks, List.getLast?_reverse]
      rw [hp] at he
      obtain rfl : p = e := by simpa using he
      exact het

theorem isAtEndP_cons (cs : List Token) (t : Token) (r' : List Token)
    (h : t.type ≠ .EOF_TOKEN) : isAtEndP (cs, t :: r') = .ok false := by
  simp [isAtEndP, peekP, h, Bind.bind, Except.bind, Pure.pure, Except.pure]

theorem advanceP_cons (cs : List Token) (t : Token) (r' : List Token)
    (h : t.type ≠ .EOF_TOKEN) :
    advanceP (cs, t :: r') = .ok (t, (t :: cs, r')) := by
  simp [advanceP, isAtEndP_cons cs t r' h, Bind.bind, Except.bind,
    Pure.pure, Except.pure]

theorem peekP_cons (cs : List Token) (t : Token) (r' : List Token) :
    peekP (cs, t :: r') = .ok t := rfl

theorem checkP_spec (st : PSt) (ty : TokenType) (h : EofTerminated (allToks st)) :
    ∃ b, checkP st ty = .ok b ∧
      (b = true → ∃ t r', st.2 = t :: r' ∧ t.type = ty ∧ t.type ≠ .EOF_TOKEN) := by
  obtain ⟨cs, r⟩ := st
  cases r with
  | nil =>
    obtain ⟨t, hp, himp⟩ := peekP_spec (cs, []) h
    have he := himp rfl
    refine ⟨false, ?_, by simp⟩
    simp only [checkP, isAtEndP, Bind.bind, Except.bind, hp, he]
    simp [Pure.pure, Except.pure]
  | cons t r' =>
    by_cases he : t.type = .EOF_TOKEN
    · refine ⟨false, ?_, by simp⟩
      simp only [checkP, isAtEndP, peekP_cons, Bind.bind, Except.bind, he]
      simp [Pure.pure, Except.pure]
    · by_cases hty : t.type = ty
      · refine ⟨true, ?_, fun _ => ⟨t, r', rfl, hty, he⟩⟩
        have hety : ty ≠ .EOF_TOKEN := hty ▸ he
        simp only [checkP, isAtEndP, peekP_cons, Bind.bind, Except.bind]
        simp [he, hty, hety, Pure.pure, Except.pure]
      · refine ⟨false, ?_, by simp⟩
        simp only [checkP, isAtEndP, peekP_cons, Bind.bind, Except.bind]
        simp [he, hty, Pure.pure, Except.pure]

theorem goodRes_check_bind {α : Type} (st : PSt) (ty : TokenType)
    (k : Bool → Except PErr (α × PSt))
    (h : EofTerminated (allToks st))
    (hk : ∀ b, (b = true → ∃ t r', st.2 = t :: r' ∧ t.type = ty ∧
        t.type ≠ .EOF_TOKEN) → GoodRes (allToks st) (k b)) :
    GoodRes (allToks st) (checkP st ty >>= k) := by
  obtain ⟨b, hc, hb⟩ := checkP_spec st ty h
  rw [hc]
  exact hk b hb

theorem isAtEndP_spec (st : PSt) (h : EofTerminated (allToks st)) :
    ∃ b, isAtEndP st = .ok b ∧
      (b = false → ∃ t r', st.2 = t :: r' ∧ t.type ≠ .EOF_TOKEN) := by
  obtain ⟨cs, r⟩ := st
  cases r with
  | nil =>
    obtain ⟨t, hp, himp⟩ := peekP_spec (cs, []) h
    have he := himp rfl
    refine ⟨true, ?_, by simp⟩
    simp only [isAtEndP, Bind.bind, Except.bind, hp, he]
    simp [Pure.pure, Except.pure]
  | cons t r' =>
    by_cases he : t.type = .EOF_TOKEN
    · refine ⟨true, ?_, by simp⟩
      simp only [isAtEndP, peekP_cons, Bind.bind, Except.bind, he]
      simp [Pure.pure, Except.pure]
    · refine ⟨false, ?_, fun _ => ⟨t, r', rfl, he⟩⟩
      simp only [isAtEndP, peekP_cons, Bind.bind, Except.bind]
      simp [he, Pure.pure, Except.pure]

theorem goodRes_isAtEnd_bind {α : Type} (st : PSt)
    (k : Bool → Except PErr (α × PSt))
    (h : EofTerminated (allToks st))
    (hk : ∀ b, (b = false → ∃ t r', st.2 = t :: r' ∧ t.type ≠ .EOF_TOKEN) →
      GoodRes (allToks st) (k b)) :
    GoodRes (allToks st) (isAtEndP st >>= k) := by
  obtain ⟨b, hc, hb⟩ := isAtEndP_spec st h
  rw [hc]
  exact hk b hb

theorem goodRes_peek_bind {α : Type} (st : PSt)
    (k : Token → Except PErr (α × PSt))
    (h : EofTerminated (allToks st))
    (hk : ∀ t, GoodRes (allToks st) (k t)) :
    GoodRes (allToks st) (peekP st >>= k) := by
  obtain ⟨t, hp, _⟩ := peekP_spec st h
  rw [hp]
  exact hk t

theorem matchTokP_spec (st : PSt) (ty : TokenType) (h : EofTerminated (allToks st)) :
    matchTokP st ty = .ok (false, st) ∨
    (∃ t cs r', st = (cs, t :: r') ∧ t.type = ty ∧ t.type ≠ .EOF_TOKEN ∧
      matchTokP st ty = .ok (true, (t :: cs, r'))) := by
  obtain ⟨b, hc, hb⟩ := checkP_spec st ty h
  cases b with
  | false =>
    left
    rw [matchTokP, hc]
    simp [Bind.bind, Except.bind, Pure.pure, Except.pure]
  | true =>
    obtain ⟨t, r', hr, hty, hne⟩ := hb rfl
    obtain ⟨cs, r⟩ := st
    simp only at hr
    subst hr
    right
    refine ⟨t, cs, r', rfl, hty, hne, ?_⟩
    rw [matchTokP, hc]
    simp [advanceP_cons cs t r' hne, Bind.bind, Except.bind, Pure.pure, Except.pure]

theorem goodRes_matchTok_bind {α : Type} (st : PSt) (ty : TokenType)
    (k : Bool × PSt → Except PErr (α × PSt))
    (h : EofTerminated (allToks st))
    (hkF : GoodRes (allToks st) (k (false, st)))
    (hkT : ∀ t cs r', st = (cs, t :: r') → t.type = ty → t.type ≠ .EOF_TOKEN →
      GoodRes (allToks st) (k (true, (t :: cs, r')))) :
    GoodRes (allToks st) (matchTokP st ty >>= k) := by
  rcases matchTokP_spec st ty h with hm | ⟨t, cs, r', hst, hty, hne, hm⟩
  · rw [hm]
    exact hkF
  · rw [hm]
    subst hst
    exact hkT t cs r' rfl hty hne

theorem consumeP_spec (st : PSt) (ty : TokenType) (m : String)
    (h : EofTerminated (allToks st)) :
    (∃ t cs r', st = (cs, t :: r') ∧ t.type = ty ∧ t.type ≠ .EOF_TOKEN ∧
      consumeP st ty m = .ok (t, (t :: cs, r'))) ∨
    (∃ s, consumeP st ty m = .error (.msg s)) := by
  obtain ⟨b, hc, hb⟩ := checkP_spec st ty h
  cases b with
  | false =>
    right
    obtain ⟨t, hp, _⟩ := peekP_spec st h
    refine ⟨m ++ " at line " ++ toString t.line ++ ", column " ++ toString t.column, ?_⟩
    rw [consumeP, hc]
    simp [hp, Bind.bind, Except.bind, Pure.pure, Except.pure]
  | true =>
    obtain ⟨t, r', hr, hty, hne⟩ := hb rfl
    obtain ⟨cs, r⟩ := st
    simp only at hr
    subst hr
    left
    refine ⟨t, cs, r', rfl, hty, hne, ?_⟩
    rw [consumeP, hc]
    simp [advanceP_cons cs t r' hne, Bind.bind, Except.bind, Pure.pure, Except.pure]

theorem goodRes_pure {α : Type} (A : List Token) (x : α) (st' : PSt)
    (h : allToks st' = A) :
    GoodRes A (pure (x, st') : Except PErr (α × PSt)) := h

theorem goodRes_sub {α : Type} (A : List Token) (hA : EofTerminated A) (st' : PSt)
    (h' : allToks st' = A) (r : Except PErr (α × PSt))
    (hr : EofTerminated (allToks st') → GoodRes (allToks st') r) :
    GoodRes A r := h' ▸ hr (by rw [h']; exact hA)

theorem goodResA_check_bind {α : Type} (A : List Token) (st : PSt) (ty : TokenType)
    (k : Bool → Except PErr (α × PSt))
    (hAeq : allToks st = A) (hA : EofTerminated A)
    (hk : ∀ b, (b = true → ∃ t r', st.2 = t :: r' ∧ t.type = ty ∧
        t.type ≠ .EOF_TOKEN) → GoodRes A (k b)) :
    GoodRes A (checkP st ty >>= k) := by
  subst hAeq
  obtain ⟨b, hc, hb⟩ := checkP_spec st ty hA
  rw [hc]
  exact hk b hb

theorem goodResA_isAtEnd_bind {α : Type} (A : List Token) (st : PSt)
    (k : Bool → Except PErr (α × PSt))
    (hAeq : allToks st = A) (hA : EofTerminated A)
    (hk : ∀ b, GoodRes A (k b)) :
    GoodRes A (isAtEndP st >>= k) := by
  subst hAeq
  obtain ⟨b, hc, _⟩ := isAtEndP_spec st hA
  rw [hc]
  exact hk b

theorem goodResA_peek_bind {α : Type} (A : List Token) (st : PSt)
    (k : Token → Except PErr (α × PSt))
    (hAeq : allToks st = A) (hA : EofTerminated A)
    (hk : ∀ t, GoodRes A (k t)) :
    GoodRes A (peekP st >>= k) := by
  subst hAeq
  obtain ⟨t, hp, _⟩ := peekP_spec st hA
  rw [hp]
  exact hk t

theorem goodResA_matchTok_bind {α : Type} (A : List Token) (st : PSt) (ty : TokenType)
    (k : Bool × PSt → Except PErr (α × PSt))
    (hAeq : allToks st = A) (hA : EofTerminated A)
    (hkF : GoodRes A (k (false, st)))
    (hkT : ∀ (t : Token) (st' : PSt), allToks st' = A → st'.1 ≠ [] → t.type = ty →
      GoodRes A (k (true, st'))) :
    GoodRes A (matchTokP st ty >>= k) := by
  subst hAeq
  rcases matchTokP_spec st ty hA with hm | ⟨t, cs, r', hst, hty, hne, hm⟩
  · rw [hm]
    exact hkF
  · rw [hm]
    refine hkT t (t :: cs, r') ?_ (by simp) hty
    rw [hst]
    exact allToks_push _ _ _

theorem goodResA_consume_bind {α : Type} (A : List Token) (st : PSt)
    (ty : TokenType) (m : String)
    (k : Token × PSt → Except PErr (α × PSt))
    (hAeq : allToks st = A) (hA : EofTerminated A)
    (hk : ∀ (t : Token) (st' : PSt), allToks st' = A → st'.1 ≠ [] → t.type = ty →
      GoodRes A (k (t, st'))) :
    GoodRes A (consumeP st ty m >>= k) := by
  subst hAeq
  rcases consumeP_spec st ty m hA with ⟨t, cs, r', hst, hty, hne, hcons⟩ | ⟨s, hcons⟩
  · rw [hcons]
    refine hk t (t :: cs, r') ?_ (by simp) hty
    rw [hst]
    exact allToks_push _ _ _
  · rw [hcons]
    exact goodRes_msg _ _

theorem allGood_zero : AllGood 0 := by
  intro st hA
  exact ⟨goodRes_fuel _, goodRes_fuel _, goodRes_fuel _, goodRes_fuel _,
    fun _ _ => goodRes_fuel _,
    goodRes_fuel _, goodRes_fuel _, fun _ => goodRes_fuel _, goodRes_fuel _,
    fun _ => goodRes_fuel _, goodRes_fuel _, fun _ => goodRes_fuel _,
    goodRes_fuel _⟩

theorem allGood_succ (f : Nat) (ih : AllGood f) : AllGood (f + 1) := by
  intro st hA
  have ihBlock := fun st h => (ih st h).2.1
  have ihBlockLoop := fun st h => (ih st h).2.2.1
  have ihStmt := fun st h => (ih st h).2.2.2.1
  have ihElseOpt := fun st h => (ih st h).2.2.2.2.1
  have ihExpr := fun st h => (ih st h).2.2.2.2.2.1
  have ihComparison := fun st h => (ih st h).2.2.2.2.2.2.1
  have ihCompLoop := fun st h => (ih st h).2.2.2.2.2.2.2.1
  have ihTerm := fun st h => (ih st h).2.2.2.2.2.2.2.2.1
  have ihTermLoop := fun st h => (ih st h).2.2.2.2.2.2.2.2.2.1
  have ihFactor := fun st h => (ih st h).2.2.2.2.2.2.2.2.2.2.1
  have ihFactorLoop := fun st h => (ih st h).2.2.2.2.2.2.2.2.2.2.2.1
  have ihPrimary := fun st h => (ih st h).2.2.2.2.2.2.2.2.2.2.2.2
  refine ⟨?_, ?_, ?_, ?_, ?_, ?_, ?_, ?_, ?_, ?_, ?_, ?_, ?_⟩
  · -- parseFunctionF
    simp only [parseFunctionF]
    apply goodRes_wrapErr
    apply goodResA_consume_bind _ st _ _ _ rfl hA
    intro t₁ st₁ hA₁ _ _
    dsimp only
    apply goodResA_consume_bind _ st₁ _ _ _ hA₁ hA
    intro t₂ st₂ hA₂ _ _
    dsimp only
    apply goodResA_consume_bind _ st₂ _ _ _ hA₂ hA
    intro t₃ st₃ hA₃ _ _
    dsimp only
    apply goodResA_consume_bind _ st₃ _ _ _ hA₃ hA
    intro t₄ st₄ hA₄ _ _
    dsimp only
    apply goodRes_bind _ _ _ (goodRes_sub _ hA st₄ hA₄ _ (ihBlock st₄))
    intro body st₅ hA₅
    dsimp only
    exact goodRes_pure _ _ _ hA₅
  · -- parseBlockF
    simp only [parseBlockF]
    apply goodRes_wrapErr
    apply goodResA_consume_bind _ st _ _ _ rfl hA
    intro t₁ st₁ hA₁ _ _
    dsimp only
    apply goodRes_bind _ _ _ (goodRes_sub _ hA st₁ hA₁ _ (ihBlockLoop st₁))
    intro ss st₂ hA₂
    dsimp only
    apply goodResA_consume_bind _ st₂ _ _ _ hA₂ hA
    intro t₃ st₃ hA₃ _ _
    dsimp only
    exact goodRes_pure _ _ _ hA₃
  · -- parseBlockLoopF
    simp only [parseBlockLoopF]
    apply goodResA_check_bind _ st _ _ rfl hA
    intro b _
    dsimp only
    apply goodResA_isAtEnd_bind _ st _ rfl hA
    intro e
    dsimp only
    by_cases hcond : (!b && !e) = true
    · rw [if_pos hcond]
      apply goodRes_bind _ _ _ (goodRes_sub _ hA st rfl _ (ihStmt st))
      intro s st₁ hA₁
      dsimp only
      apply goodRes_bind _ _ _ (goodRes_sub _ hA st₁ hA₁ _ (ihBlockLoop st₁))
      intro ss st₂ hA₂
      dsimp only
      exact goodRes_pure _ _ _ hA₂
    · rw [if_neg hcond]
      exact goodRes_pure _ _ _ rfl
  · -- parseStatementF
    simp only [parseStatementF]
    apply goodRes_wrapErr
    refine goodResA_matchTok_bind _ st _ _ rfl hA ?_ ?_
    · -- not a return statement
      dsimp only
      simp only [Bool.false_eq_true, if_false]
      refine goodResA_matchTok_bind _ st _ _ rfl hA ?_ ?_
      · -- not an if statement
        dsimp only
        simp only [Bool.false_eq_true, if_false]
        refine goodResA_matchTok_bind _ st _ _ rfl hA ?_ ?_
        · -- not a declaration
          dsimp only
          simp only [Bool.false_eq_true, if_false]
          refine goodResA_matchTok_bind _ st _ _ rfl hA ?_ ?_
          · -- not a block either: the unexpected-token error
            dsimp only
            simp only [Bool.false_eq_true, if_false]
            apply goodResA_peek_bind _ st _ rfl hA
            intro t
            exact goodRes_msg _ _
          · -- nested block: rewind one token and parse the block
            intro t₄ st₄ hA₄ hne₄ _
            dsimp only
            simp only [if_true]
            obtain ⟨c₄, r₄⟩ := st₄
            obtain ⟨p, cs', rfl⟩ := List.exists_cons_of_ne_nil (by simpa using hne₄)
            have hrw : rewindP (p :: cs', r₄) = .ok (cs', p :: r₄) := rfl
            rw [hrw]
            have hA' : allToks (cs', p :: r₄) = allToks st := by
              rw [← allToks_push]
              exact hA₄
            exact goodRes_sub _ hA _ hA' _ (ihBlock _)
        · -- variable declaration
          intro t₃ st₃ hA₃ _ _
          dsimp only
          simp only [if_true]
          apply goodResA_consume_bind _ st₃ _ _ _ hA₃ hA
          intro n₁ stA hAa _ _
          dsimp only
          apply goodResA_consume_bind _ stA _ _ _ hAa hA
          intro n₂ stB hAb _ _
          dsimp only
          apply goodRes_bind _ _ _ (goodRes_sub _ hA stB hAb _ (ihExpr stB))
          intro ini stC hAc
          dsimp only
          apply goodResA_consume_bind _ stC _ _ _ hAc hA
          intro n₄ stD hAd _ _
          dsimp only
          exact goodRes_pure _ _ _ hAd
      · -- if statement
        intro t₂ st₂ hA₂ _ _
        dsimp only
        simp only [if_true]
        apply goodResA_consume_bind _ st₂ _ _ _ hA₂ hA
        intro n₁ stA hAa _ _
        dsimp only
        apply goodRes_bind _ _ _ (goodRes_sub _ hA stA hAa _ (ihExpr stA))
        intro cond stB hAb
        dsimp only
        apply goodResA_consume_bind _ stB _ _ _ hAb hA
        intro n₂ stC hAc _ _
        dsimp only
        apply goodRes_bind _ _ _ (goodRes_sub _ hA stC hAc _ (ihStmt stC))
        intro thenB stD hAd
        dsimp only
        exact goodRes_sub _ hA stD hAd _ (fun h => ihElseOpt stD h cond thenB)
    · -- return statement
      intro t₁ st₁ hA₁ _ _
      dsimp only
      simp only [if_true]
      apply goodRes_bind _ _ _ (goodRes_sub _ hA st₁ hA₁ _ (ihExpr st₁))
      intro e stA hAa
      dsimp only
      apply goodResA_consume_bind _ stA _ _ _ hAa hA
      intro t₃ stB hAb _ _
      dsimp only
      exact goodRes_pure _ _ _ hAb
  · -- parseElseOptF
    intro c tb
    simp only [parseElseOptF]
    refine goodResA_matchTok_bind _ st _ _ rfl hA ?_ ?_
    · dsimp only
      simp only [Bool.false_eq_true, if_false]
      exact goodRes_pure _ _ _ rfl
    · intro t₁ st₁ hA₁ _ _
      dsimp only
      simp only [if_true]
      apply goodRes_bind _ _ _ (goodRes_sub _ hA st₁ hA₁ _ (ihStmt st₁))
      intro eb stG hAg
      dsimp only
      exact goodRes_pure _ _ _ hAg
  · -- parseExpressionF
    simp only [parseExpressionF]
    exact goodRes_wrapErr _ _ _ (goodRes_sub _ hA st rfl _ (ihComparison st))
  · -- parseComparisonF
    simp only [parseComparisonF]
    apply goodRes_bind _ _ _ (goodRes_sub _ hA st rfl _ (ihTerm st))
    intro e st₁ hA₁
    dsimp only
    exact goodRes_sub _ hA st₁ hA₁ _ (fun h => ihCompLoop st₁ h e)
  · -- parseCompLoopF
    intro e
    simp only [parseCompLoopF]
    apply goodResA_check_bind _ st _ _ rfl hA
    intro b₁ hb₁
    dsimp only
    apply goodResA_check_bind _ st _ _ rfl hA
    intro b₂ hb₂
    dsimp only
    apply goodResA_check_bind _ st _ _ rfl hA
    intro b₃ hb₃
    dsimp only
    apply goodResA_check_bind _ st _ _ rfl hA
    intro b₄ hb₄
    dsimp only
    apply goodResA_check_bind _ st _ _ rfl hA
    intro b₅ hb₅
    dsimp only
    apply goodResA_check_bind _ st _ _ rfl hA
    intro b₆ hb₆
    dsimp only
    by_cases hcond : (b₁ || b₂ || b₃ || b₄ || b₅ || b₆) = true
    · rw [if_pos hcond]
      have hsh : ∃ t r', st.2 = t :: r' ∧ t.type ≠ .EOF_TOKEN := by
        rcases Bool.or_eq_true_iff.mp hcond with h | h₆
        rotate_left
        · obtain ⟨t, r', hx, _, hz⟩ := hb₆ h₆; exact ⟨t, r', hx, hz⟩
        rcases Bool.or_eq_true_iff.mp h with h | h₅
        rotate_left
        · obtain ⟨t, r', hx, _, hz⟩ := hb₅ h₅; exact ⟨t, r', hx, hz⟩
        rcases Bool.or_eq_true_iff.mp h with h | h₄
        rotate_left
        · obtain ⟨t, r', hx, _, hz⟩ := hb₄ h₄; exact ⟨t, r', hx, hz⟩
        rcases Bool.or_eq_true_iff.mp h with h | h₃
        rotate_left
        · obtain ⟨t, r', hx, _, hz⟩ := hb₃ h₃; exact ⟨t, r', hx, hz⟩
        rcases Bool.or_eq_true_iff.mp h with h₁ | h₂
        · obtain ⟨t, r', hx, _, hz⟩ := hb₁ h₁; exact ⟨t, r', hx, hz⟩
        · obtain ⟨t, r', hx, _, hz⟩ := hb₂ h₂; exact ⟨t, r', hx, hz⟩
      obtain ⟨t, r', hr, hne⟩ := hsh
      obtain ⟨cs, r⟩ := st
      dsimp only at hr
      subst hr
      rw [advanceP_cons cs t r' hne]
      dsimp only [Bind.bind, Except.bind]
      apply goodRes_bind _ _ _
        (goodRes_sub _ hA (t :: cs, r') (allToks_push cs t r') _ (ihTerm _))
      intro rhs st₂ hA₂
      dsimp only
      exact goodRes_sub _ hA st₂ hA₂ _ (fun h => ihCompLoop st₂ h _)
    · rw [if_neg hcond]
      exact goodRes_pure _ _ _ rfl
  · -- parseTermF
    simp only [parseTermF]
    apply goodRes_bind _ _ _ (goodRes_sub _ hA st rfl _ (ihFactor st))
    intro e st₁ hA₁
    dsimp only
    exact goodRes_sub _ hA st₁ hA₁ _ (fun h => ihTermLoop st₁ h e)
  · -- parseTermLoopF
    intro e
    simp only [parseTermLoopF]
    apply goodResA_check_bind _ st _ _ rfl hA
    intro b₁ hb₁
    dsimp only
    apply goodResA_check_bind _ st _ _ rfl hA
    intro b₂ hb₂
    dsimp only
    by_cases hcond : (b₁ || b₂) = true
    · rw [if_pos hcond]
      have hsh : ∃ t r', st.2 = t :: r' ∧ t.type ≠ .EOF_TOKEN := by
        rcases Bool.or_eq_true_iff.mp hcond with h₁ | h₂
        · obtain ⟨t, r', hx, _, hz⟩ := hb₁ h₁; exact ⟨t, r', hx, hz⟩
        · obtain ⟨t, r', hx, _, hz⟩ := hb₂ h₂; exact ⟨t, r', hx, hz⟩
      obtain ⟨t, r', hr, hne⟩ := hsh
      obtain ⟨cs, r⟩ := st
      dsimp only at hr
      subst hr
      rw [advanceP_cons cs t r' hne]
      dsimp only [Bind.bind, Except.bind]
      apply goodRes_bind _ _ _
        (goodRes_sub _ hA (t :: cs, r') (allToks_push cs t r') _ (ihFactor _))
      intro rhs st₂ hA₂
      dsimp only
      exact goodRes_sub _ hA st₂ hA₂ _ (fun h => ihTermLoop st₂ h _)
    · rw [if_neg hcond]
      exact goodRes_pure _ _ _ rfl
  · -- parseFactorF
    simp only [parseFactorF]
    apply goodRes_bind _ _ _ (goodRes_sub _ hA st rfl _ (ihPrimary st))
    intro e st₁ hA₁
    dsimp only
    exact goodRes_sub _ hA st₁ hA₁ _ (fun h => ihFactorLoop st₁ h e)
  · -- parseFactorLoopF
    intro e
    simp only [parseFactorLoopF]
    apply goodResA_check_bind _ st _ _ rfl hA
    intro b₁ hb₁
    dsimp only
    apply goodResA_check_bind _ st _ _ rfl hA
    intro b₂ hb₂
    dsimp only
    by_cases hcond : (b₁ || b₂) = true
    · rw [if_pos hcond]
      have hsh : ∃ t r', st.2 = t :: r' ∧ t.type ≠ .EOF_TOKEN := by
        rcases Bool.or_eq_true_iff.mp hcond with h₁ | h₂
        · obtain ⟨t, r', hx, _, hz⟩ := hb₁ h₁; exact ⟨t, r', hx, hz⟩
        · obtain ⟨t, r', hx, _, hz⟩ := hb₂ h₂; exact ⟨t, r', hx, hz⟩
      obtain ⟨t, r', hr, hne⟩ := hsh
      obtain ⟨cs, r⟩ := st
      dsimp only at hr
      subst hr
      rw [advanceP_cons cs t r' hne]
      dsimp only [Bind.bind, Except.bind]
      apply goodRes_bind _ _ _
        (goodRes_sub _ hA (t :: cs, r') (allToks_push cs t r') _ (ihPrimary _))
      intro rhs st₂ hA₂
      dsimp only
      exact goodRes_sub _ hA st₂ hA₂ _ (fun h => ihFactorLoop st₂ h _)
    · rw [if_neg hcond]
      exact goodRes_pure _ _ _ rfl
  · -- parsePrimaryF
    simp only [parsePrimaryF]
    refine goodResA_matchTok_bind _ st _ _ rfl hA ?_ ?_
    · -- not a number
      dsimp only
      simp only [Bool.false_eq_true, if_false]
      refine goodResA_matchTok_bind _ st _ _ rfl hA ?_ ?_
      · -- not an identifier
        dsimp only
        simp only [Bool.false_eq_true, if_false]
        refine goodResA_matchTok_bind _ st _ _ rfl hA ?_ ?_
        · -- not a parenthesis: expected-expression error
          dsimp only
          simp only [Bool.false_eq_true, if_false]
          apply goodResA_peek_bind _ st _ rfl hA
          intro t
          exact goodRes_msg _ _
        · -- parenthesised expression
          intro t₃ st₃ hA₃ _ _
          dsimp only
          simp only [if_true]
          apply goodRes_bind _ _ _ (goodRes_sub _ hA st₃ hA₃ _ (ihExpr st₃))
          intro e₄ st₄ hA₄
          dsimp only
          apply goodResA_consume_bind _ st₄ _ _ _ hA₄ hA
          intro t₅ st₅ hA₅ _ _
          dsimp only
          exact goodRes_pure _ _ _ hA₅
      · -- identifier
        intro t₂ st₂ hA₂ hne₂ _
        dsimp only
        simp only [if_true]
        obtain ⟨c₂, r₂⟩ := st₂
        obtain ⟨p, cs', rfl⟩ := List.exists_cons_of_ne_nil (by simpa using hne₂)
        have hpv : previousP (p :: cs', r₂) = .ok p := rfl
        rw [hpv]
        dsimp only [Bind.bind, Except.bind]
        exact goodRes_pure _ _ _ hA₂
    · -- number literal
      intro t₁ st₁ hA₁ hne₁ _
      dsimp only
      simp only [if_true]
      obtain ⟨c₁, r₁⟩ := st₁
      obtain ⟨p, cs', rfl⟩ := List.exists_cons_of_ne_nil (by simpa using hne₁)
      have hpv : previousP (p :: cs', r₁) = .ok p := rfl
      rw [hpv]
      dsimp only [Bind.bind, Except.bind]
      exact goodRes_pure _ _ _ hA₁

theorem allGood (f : Nat) : AllGood f := by
  induction f with
  | zero => exact allGood_zero
  | succ f ih => exact allGood_succ f ih

/-- C10: for every non-empty token sequence ending in an `EOF_TOKEN` (the
shape of every successful tokenize output), a full run of the parser from
cursor 0 never performs an out-of-bounds token access.  In the embedding every
C++ access that could fall outside the vector — `peek`'s `tokens.back()`
fallback, `previous`'s `tokens[current-1]`, the `current--` rewind before
re-parsing a block, and `advance` stepping past the end — returns the
distinguished `PErr.bounds` value instead, which no handler catches, so the
run ends in `.error .bounds` iff some access went out of bounds; the theorem
shows that outcome is impossible (and that a successful parse ends with its
cursor over the same token vector).  An empty token sequence is excluded by
the hypothesis, as the claim requires. -/
theorem claim_C10 (fuel : Nat) (ts : List Token) (h₁ : ts ≠ [])
    (h₂ : ∀ e, ts.getLast? = some e → e.type = .EOF_TOKEN) :
    parseFunction ts fuel ≠ .error .bounds ∧
    (∀ ast st', parseFunction ts fuel = .ok (ast, st') → allToks st' = ts) := by
  have hA : EofTerminated (allToks ([], ts)) := by
    obtain ⟨e, he⟩ := List.getLast?_isSome.mpr h₁ |> Option.isSome_iff_exists.mp
    exact ⟨e, by simpa [allToks] using he, h₂ e he⟩
  have hg := (allGood fuel ([], ts) hA).1
  rw [parseFunction]
  constructor
  · intro hbad
    rw [hbad] at hg
    exact hg rfl
  · intro ast st' hok
    rw [hok] at hg
    simpa [allToks] using hg

theorem checkP_cons_eq (cs : List Token) (t : Token) (r' : List Token)
    (ty : TokenType) (hty : t.type = ty) (hne : t.type ≠ .EOF_TOKEN) :
    checkP (cs, t :: r') ty = .ok true := by
  have hety : ty ≠ .EOF_TOKEN := hty ▸ hne
  simp only [checkP, isAtEndP, peekP_cons, Bind.bind, Except.bind]
  simp [hne, hty, hety, Pure.pure, Except.pure]

theorem checkP_cons_neq (cs : List Token) (t : Token) (r' : List Token)
    (ty : TokenType) (h : t.type ≠ ty) :
    checkP (cs, t :: r') ty = .ok false := by
  by_cases he : t.type = .EOF_TOKEN
  · simp only [checkP, isAtEndP, peekP_cons, Bind.bind, Except.bind, he]
    simp [Pure.pure, Except.pure]
  · simp only [checkP, isAtEndP, peekP_cons, Bind.bind, Except.bind]
    simp [he, h, Pure.pure, Except.pure]

theorem matchTokP_cons_eq (cs : List Token) (t : Token) (r' : List Token)
    (ty : TokenType) (hty : t.type = ty) (hne : t.type ≠ .EOF_TOKEN) :
    matchTokP (cs, t :: r') ty = .ok (true, (t :: cs, r')) := by
  rw [matchTokP, checkP_cons_eq cs t r' ty hty hne]
  simp [advanceP_cons cs t r' hne, Bind.bind, Except.bind, Pure.pure, Except.pure]

theorem matchTokP_cons_neq (cs : List Token) (t : Token) (r' : List Token)
    (ty : TokenType) (h : t.type ≠ ty) :
    matchTokP (cs, t :: r') ty = .ok (false, (cs, t :: r')) := by
  rw [matchTokP, checkP_cons_neq cs t r' ty h]
  simp [Bind.bind, Except.bind, Pure.pure, Except.pure]

theorem consumeP_cons_eq (cs : List Token) (t : Token) (r' : List Token)
    (ty : TokenType) (m : String) (hty : t.type = ty) (hne : t.type ≠ .EOF_TOKEN) :
    consumeP (cs, t :: r') ty m = .ok (t, (t :: cs, r')) := by
  rw [consumeP, checkP_cons_eq cs t r' ty hty hne]
  simp [advanceP_cons cs t r' hne, Bind.bind, Except.bind, Pure.pure, Except.pure]

/-- C10 witness: the hypotheses discharged at the one-token sequence holding
only the end-of-input marker. -/
theorem claim_C10_witness :
    ([⟨.EOF_TOKEN, "", 1, 1⟩] : List Token) ≠ [] ∧
    (∀ e, ([⟨.EOF_TOKEN, "", 1, 1⟩] : List Token).getLast? = some e →
      e.type = .EOF_TOKEN) ∧
    parseFunction [⟨.EOF_TOKEN, "", 1, 1⟩] 5 ≠ .error .bounds := by
  refine ⟨by simp, ?_, ?_⟩
  · intro e he
    obtain rfl : (⟨.EOF_TOKEN, "", 1, 1⟩ : Token) = e := by simpa using he
    rfl
  · exact (claim_C10 5 [⟨.EOF_TOKEN, "", 1, 1⟩] (by simp)
      (fun e he => by
        obtain rfl : (⟨.EOF_TOKEN, "", 1, 1⟩ : Token) = e := by simpa using he
        rfl)).1

theorem checkP_cons_dec (cs : List Token) (t : Token) (r' : List Token)
    (ty : TokenType) (hne : t.type ≠ .EOF_TOKEN) :
    checkP (cs, t :: r') ty = .ok (decide (t.type = ty)) := by
  by_cases h : t.type = ty
  · rw [checkP_cons_eq cs t r' ty h hne]
    simp [h]
  · rw [checkP_cons_neq cs t r' ty h]
    simp [h]

theorem termFollow_of_exprFollow (rest : List Token) (h : ExprFollow rest) :
    TermFollow rest := by
  obtain ⟨t, r', rfl, hn⟩ := h
  exact ⟨t, r', rfl, hn.1, hn.2.1, hn.2.2.1, hn.2.2.2.1⟩

theorem factorFollow_of_termFollow (rest : List Token) (h : TermFollow rest) :
    FactorFollow rest := by
  obtain ⟨t, r', rfl, h₁, h₂, _, _⟩ := h
  exact ⟨t, r', rfl, h₁, h₂⟩

theorem termSegs_follow (rs : List Token) (d : GTermSegs rs) (rest : List Token)
    (hrest : TermFollow rest) : FactorFollow (rs ++ rest) := by
  cases d with
  | nil => simpa using factorFollow_of_termFollow rest hrest
  | cons o p rest' ho _ _ =>
    refine ⟨o, p ++ rest' ++ rest, by simp, ?_⟩
    rcases ho with h | h <;> rw [h] <;> exact ⟨by decide, by decide⟩

theorem compSegs_follow (rs : List Token) (d : GCompSegs rs) (rest : List Token)
    (hrest : ExprFollow rest) : TermFollow (rs ++ rest) := by
  cases d with
  | nil => simpa using termFollow_of_exprFollow rest hrest
  | cons o p rest' ho _ _ =>
    refine ⟨o, p ++ rest' ++ rest, by simp, ?_⟩
    rcases ho with h | h | h | h | h | h <;> rw [h] <;>
      exact ⟨by decide, by decide, by decide, by decide⟩

theorem chunksToks_nil : chunksToks [] = [] := rfl

theorem chunksToks_cons (ck : ElseChunk) (L : List ElseChunk) :
    chunksToks (ck :: L) = ck.1 :: (ck.2.1 ++ chunksToks L) := by
  simp [chunksToks, chunkToks]

theorem chunksToks_append (L₁ L₂ : List ElseChunk) :
    chunksToks (L₁ ++ L₂) = chunksToks L₁ ++ chunksToks L₂ := by
  simp [chunksToks]

theorem factorLoop_step (f : Nat) (e : Expr) (cs : List Token) (t : Token)
    (r : List Token) (hop : t.type = .MULTIPLY ∨ t.type = .DIVIDE) :
    parseFactorLoopF (f + 1) e (cs, t :: r) =
      match parsePrimaryF f (t :: cs, r) with
      | .ok (rhs, st₂) => parseFactorLoopF f (.binary e t.type rhs) st₂
      | .error er => .error er := by
  rcases hop with h | h <;>
    simp only [parseFactorLoopF, checkP, isAtEndP, peekP, advanceP, h,
      Bind.bind, Except.bind, Pure.pure, Except.pure, reduceCtorEq,
      if_false, if_true, reduceIte] <;>
    cases parsePrimaryF f (t :: cs, r) <;> simp

theorem factorLoop_exit (f : Nat) (e : Expr) (cs : List Token) (t : Token)
    (r : List Token) (h₁ : t.type ≠ .MULTIPLY) (h₂ : t.type ≠ .DIVIDE) :
    parseFactorLoopF (f + 1) e (cs, t :: r) = .ok (e, (cs, t :: r)) := by
  simp only [parseFactorLoopF]
  rw [checkP_cons_neq cs t r _ h₁]
  dsimp only [Bind.bind, Except.bind]
  rw [checkP_cons_neq cs t r _ h₂]
  rfl

theorem termLoop_step (f : Nat) (e : Expr) (cs : List Token) (t : Token)
    (r : List Token) (hop : t.type = .PLUS ∨ t.type = .MINUS) :
    parseTermLoopF (f + 1) e (cs, t :: r) =
      match parseFactorF f (t :: cs, r) with
      | .ok (rhs, st₂) => parseTermLoopF f (.binary e t.type rhs) st₂
      | .error er => .error er := by
  rcases hop with h | h <;>
    simp only [parseTermLoopF, checkP, isAtEndP, peekP, advanceP, h,
      Bind.bind, Except.bind, Pure.pure, Except.pure, reduceCtorEq,
      if_false, if_true, reduceIte] <;>
    cases parseFactorF f (t :: cs, r) <;> simp

theorem termLoop_exit (f : Nat) (e : Expr) (cs : List Token) (t : Token)
    (r : List Token) (h₁ : t.type ≠ .PLUS) (h₂ : t.type ≠ .MINUS) :
    parseTermLoopF (f + 1) e (cs, t :: r) = .ok (e, (cs, t :: r)) := by
  simp only [parseTermLoopF]
  rw [checkP_cons_neq cs t r _ h₁]
  dsimp only [Bind.bind, Except.bind]
  rw [checkP_cons_neq cs t r _ h₂]
  rfl

theorem compLoop_step (f : Nat) (e : Expr) (cs : List Token) (t : Token)
    (r : List Token)
    (hop : t.type = .GREATER ∨ t.type = .GREATER_EQUAL ∨ t.type = .LESS ∨
      t.type = .LESS_EQUAL ∨ t.type = .EQUAL ∨ t.type = .NOT_EQUAL) :
    parseCompLoopF (f + 1) e (cs, t :: r) =
      match parseTermF f (t :: cs, r) with
      | .ok (rhs, st₂) => parseCompLoopF f (.binary e t.type rhs) st₂
      | .error er => .error er := by
  rcases hop with h | h | h | h | h | h <;>
    simp only [parseCompLoopF, checkP, isAtEndP, peekP, advanceP, h,
      Bind.bind, Except.bind, Pure.pure, Except.pure, reduceCtorEq,
      if_false, if_true, reduceIte] <;>
    cases parseTermF f (t :: cs, r) <;> simp

theorem compLoop_exit (f : Nat) (e : Expr) (cs : List Token) (t : Token)
    (r : List Token) (h₁ : t.type ≠ .GREATER) (h₂ : t.type ≠ .GREATER_EQUAL)
    (h₃ : t.type ≠ .LESS) (h₄ : t.type ≠ .LESS_EQUAL) (h₅ : t.type ≠ .EQUAL)
    (h₆ : t.type ≠ .NOT_EQUAL) :
    parseCompLoopF (f + 1) e (cs, t :: r) = .ok (e, (cs, t :: r)) := by
  simp only [parseCompLoopF]
  rw [checkP_cons_neq cs t r _ h₁]
  dsimp only [Bind.bind, Except.bind]
  rw [checkP_cons_neq cs t r _ h₂]
  dsimp only [Bind.bind, Except.bind]
  rw [checkP_cons_neq cs t r _ h₃]
  dsimp only [Bind.bind, Except.bind]
  rw [checkP_cons_neq cs t r _ h₄]
  dsimp only [Bind.bind, Except.bind]
  rw [checkP_cons_neq cs t r _ h₅]
  dsimp only [Bind.bind, Except.bind]
  rw [checkP_cons_neq cs t r _ h₆]
  rfl

mutual

theorem primaryComplete (ts : List Token) (d : GPrimary ts) (cs rest : List Token)
    (f : Nat) (hf : 6 * ts.length + 1 ≤ f) :
    ∃ e, parsePrimaryF f (cs, ts ++ rest) = .ok (e, (ts.reverse ++ cs, rest)) ∧
      nodeCountE e ≤ ts.length := by
  obtain ⟨f, rfl⟩ : ∃ f', f = f' + 1 := ⟨f - 1, by omega⟩
  cases d with
  | num t h =>
    refine ⟨Expr.num t.value, ?_, by simp [nodeCountE]⟩
    simp only [parsePrimaryF, List.singleton_append, List.reverse_cons,
      List.reverse_nil, List.nil_append]
    rw [matchTokP_cons_eq cs t rest .NUMBER h (by rw [h]; decide)]
    rfl
  | ident t h =>
    refine ⟨Expr.ident t.value, ?_, by simp [nodeCountE]⟩
    simp only [parsePrimaryF, List.singleton_append, List.reverse_cons,
      List.reverse_nil, List.nil_append]
    rw [matchTokP_cons_neq cs t rest .NUMBER (by rw [h]; decide)]
    dsimp only [Bind.bind, Except.bind]
    simp only [Bool.false_eq_true, if_false]
    rw [matchTokP_cons_eq cs t rest .IDENTIFIER h (by rw [h]; decide)]
    rfl
  | paren l r ts hl hr d' =>
    have hf' : 6 * ts.length + 7 ≤ f := by
      simp only [List.length_cons, List.length_append, List.length_singleton] at hf
      omega
    obtain ⟨e, hrun, hcount⟩ := exprComplete ts d' (l :: cs) (r :: rest)
      ⟨r, rest, rfl, by rw [hr]; simp [NotExprOp]⟩ f hf'
    refine ⟨e, ?_, ?_⟩
    · simp only [parsePrimaryF, List.cons_append, List.append_assoc,
        List.singleton_append, List.nil_append]
      rw [matchTokP_cons_neq cs l _ .NUMBER (by rw [hl]; decide)]
      dsimp only [Bind.bind, Except.bind]
      simp only [Bool.false_eq_true, if_false]
      rw [matchTokP_cons_neq cs l _ .IDENTIFIER (by rw [hl]; decide)]
      dsimp only [Bind.bind, Except.bind]
      simp only [Bool.false_eq_true, if_false]
      rw [matchTokP_cons_eq cs l _ .LPAREN hl (by rw [hl]; decide)]
      dsimp only [Bind.bind, Except.bind]
      simp only [if_true]
      rw [hrun]
      dsimp only [Bind.bind, Except.bind]
      rw [consumeP_cons_eq _ r rest .RPAREN _ hr (by rw [hr]; decide)]
      dsimp only [Bind.bind, Except.bind, Pure.pure, Except.pure]
      simp [List.reverse_append, List.append_assoc]
    · simp only [List.length_cons, List.length_append, List.length_singleton]
      omega
termination_by 8 * ts.length + 0
decreasing_by all_goals (subst_vars; (try simp only [List.length_cons, List.length_append, List.length_singleton]); omega)

theorem factorSegsComplete (segs : List Token) (d : GFactorSegs segs) (acc : Expr)
    (cs rest : List Token) (hrest : FactorFollow rest)
    (f : Nat) (hf : 6 * segs.length + 1 ≤ f) :
    ∃ e, parseFactorLoopF f acc (cs, segs ++ rest) =
        .ok (e, (segs.reverse ++ cs, rest)) ∧
      nodeCountE e ≤ nodeCountE acc + segs.length := by
  obtain ⟨f, rfl⟩ : ∃ f', f = f' + 1 := ⟨f - 1, by omega⟩
  cases d with
  | nil =>
    obtain ⟨t, r', rfl, hm, hd⟩ := hrest
    refine ⟨acc, ?_, by simp⟩
    simp only [List.nil_append, List.reverse_nil]
    exact factorLoop_exit f acc cs t r' hm hd
  | cons o p rest' ho dp drest =>
    have hf₁ : 6 * p.length + 1 ≤ f := by
      simp only [List.length_cons, List.length_append] at hf
      omega
    obtain ⟨e₁, hrun₁, hc₁⟩ := primaryComplete p dp (o :: cs) (rest' ++ rest) f hf₁
    have hf₂ : 6 * rest'.length + 1 ≤ f := by
      simp only [List.length_cons, List.length_append] at hf
      omega
    obtain ⟨e₂, hrun₂, hc₂⟩ := factorSegsComplete rest' drest
      (Expr.binary acc o.type e₁) (p.reverse ++ o :: cs) rest hrest f hf₂
    refine ⟨e₂, ?_, ?_⟩
    · simp only [List.cons_append, List.append_assoc]
      rw [factorLoop_step f acc cs o (p ++ (rest' ++ rest)) ho]
      rw [hrun₁]
      dsimp only
      rw [hrun₂]
      simp [List.reverse_append, List.append_assoc]
    · simp only [List.length_cons, List.length_append, nodeCountE] at hc₁ hc₂ ⊢
      omega
termination_by 8 * segs.length + 1
decreasing_by all_goals (subst_vars; (try simp only [List.length_cons, List.length_append, List.length_singleton]); omega)

theorem factorComplete (ts : List Token) (d : GFactor ts) (cs rest : List Token)
    (hrest : FactorFollow rest) (f : Nat) (hf : 6 * ts.length + 2 ≤ f) :
    ∃ e, parseFactorF f (cs, ts ++ rest) = .ok (e, (ts.reverse ++ cs, rest)) ∧
      nodeCountE e ≤ ts.length := by
  obtain ⟨f, rfl⟩ : ∃ f', f = f' + 1 := ⟨f - 1, by omega⟩
  cases d with
  | mk p segs dp dsegs =>
    have hf₁ : 6 * p.length + 1 ≤ f := by
      simp only [List.length_append] at hf
      omega
    obtain ⟨e₁, hrun₁, hc₁⟩ := primaryComplete p dp cs (segs ++ rest) f hf₁
    have hf₂ : 6 * segs.length + 1 ≤ f := by
      simp only [List.length_append] at hf
      omega
    obtain ⟨e₂, hrun₂, hc₂⟩ := factorSegsComplete segs dsegs e₁
      (p.reverse ++ cs) rest hrest f hf₂
    refine ⟨e₂, ?_, ?_⟩
    · simp only [parseFactorF, List.append_assoc]
      rw [hrun₁]
      dsimp only [Bind.bind, Except.bind]
      rw [hrun₂]
      simp [List.reverse_append, List.append_assoc]
    · simp only [List.length_append] at hc₁ hc₂ ⊢
      omega
termination_by 8 * ts.length + 2
decreasing_by all_goals (subst_vars; (try simp only [List.length_cons, List.length_append, List.length_singleton]); omega)

theorem termSegsComplete (segs : List Token) (d : GTermSegs segs) (acc : Expr)
    (cs rest : List Token) (hrest : TermFollow rest)
    (f : Nat) (hf : 6 * segs.length + 3 ≤ f) :
    ∃ e, parseTermLoopF f acc (cs, segs ++ rest) =
        .ok (e, (segs.reverse ++ cs, rest)) ∧
      nodeCountE e ≤ nodeCountE acc + segs.length := by
  obtain ⟨f, rfl⟩ : ∃ f', f = f' + 1 := ⟨f - 1, by omega⟩
  cases d with
  | nil =>
    obtain ⟨t, r', rfl, _, _, hp, hm⟩ := hrest
    refine ⟨acc, ?_, by simp⟩
    simp only [List.nil_append, List.reverse_nil]
    exact termLoop_exit f acc cs t r' hp hm
  | cons o p rest' ho dp drest =>
    have hfollow : FactorFollow (rest' ++ rest) :=
      termSegs_follow rest' drest rest hrest
    have hf₁ : 6 * p.length + 2 ≤ f := by
      simp only [List.length_cons, List.length_append] at hf
      omega
    obtain ⟨e₁, hrun₁, hc₁⟩ := factorComplete p dp (o :: cs) (rest' ++ rest)
      hfollow f hf₁
    have hf₂ : 6 * rest'.length + 3 ≤ f := by
      simp only [List.length_cons, List.length_append] at hf
      omega
    obtain ⟨e₂, hrun₂, hc₂⟩ := termSegsComplete rest' drest
      (Expr.binary acc o.type e₁) (p.reverse ++ o :: cs) rest hrest f hf₂
    refine ⟨e₂, ?_, ?_⟩
    · simp only [List.cons_append, List.append_assoc]
      rw [termLoop_step f acc cs o (p ++ (rest' ++ rest)) ho]
      rw [hrun₁]
      dsimp only
      rw [hrun₂]
      simp [List.reverse_append, List.append_assoc]
    · simp only [List.length_cons, List.length_append, nodeCountE] at hc₁ hc₂ ⊢
      omega
termination_by 8 * segs.length + 3
decreasing_by all_goals (subst_vars; (try simp only [List.length_cons, List.length_append, List.length_singleton]); omega)

theorem termComplete (ts : List Token) (d : GTerm ts) (cs rest : List Token)
    (hrest : TermFollow rest) (f : Nat) (hf : 6 * ts.length + 4 ≤ f) :
    ∃ e, parseTermF f (cs, ts ++ rest) = .ok (e, (ts.reverse ++ cs, rest)) ∧
      nodeCountE e ≤ ts.length := by
  obtain ⟨f, rfl⟩ : ∃ f', f = f' + 1 := ⟨f - 1, by omega⟩
  cases d with
  | mk p segs dp dsegs =>
    have hfollow : FactorFollow (segs ++ rest) :=
      termSegs_follow segs dsegs rest hrest
    have hf₁ : 6 * p.length + 2 ≤ f := by
      simp only [List.length_append] at hf
      omega
    obtain ⟨e₁, hrun₁, hc₁⟩ := factorComplete p dp cs (segs ++ rest) hfollow f hf₁
    have hf₂ : 6 * segs.length + 3 ≤ f := by
      simp only [List.length_append] at hf
      omega
    obtain ⟨e₂, hrun₂, hc₂⟩ := termSegsComplete segs dsegs e₁
      (p.reverse ++ cs) rest hrest f hf₂
    refine ⟨e₂, ?_, ?_⟩
    · simp only [parseTermF, List.append_assoc]
      rw [hrun₁]
      dsimp only [Bind.bind, Except.bind]
      rw [hrun₂]
      simp [List.reverse_append, List.append_assoc]
    · simp only [List.length_append] at hc₁ hc₂ ⊢
      omega
termination_by 8 * ts.length + 4
decreasing_by all_goals (subst_vars; (try simp only [List.length_cons, List.length_append, List.length_singleton]); omega)

theorem compSegsComplete (segs : List Token) (d : GCompSegs segs) (acc : Expr)
    (cs rest : List Token) (hrest : ExprFollow rest)
    (f : Nat) (hf : 6 * segs.length + 5 ≤ f) :
    ∃ e, parseCompLoopF f acc (cs, segs ++ rest) =
        .ok (e, (segs.reverse ++ cs, rest)) ∧
      nodeCountE e ≤ nodeCountE acc + segs.length := by
  obtain ⟨f, rfl⟩ : ∃ f', f = f' + 1 := ⟨f - 1, by omega⟩
  cases d with
  | nil =>
    obtain ⟨t, r', rfl, hn⟩ := hrest
    refine ⟨acc, ?_, by simp⟩
    simp only [List.nil_append, List.reverse_nil]
    exact compLoop_exit f acc cs t r' hn.2.2.2.2.1 hn.2.2.2.2.2.1
      hn.2.2.2.2.2.2.1 hn.2.2.2.2.2.2.2.1 hn.2.2.2.2.2.2.2.2.1
      hn.2.2.2.2.2.2.2.2.2
  | cons o p rest' ho dp drest =>
    have hfollow : TermFollow (rest' ++ rest) :=
      compSegs_follow rest' drest rest hrest
    have hf₁ : 6 * p.length + 4 ≤ f := by
      simp only [List.length_cons, List.length_append] at hf
      omega
    obtain ⟨e₁, hrun₁, hc₁⟩ := termComplete p dp (o :: cs) (rest' ++ rest)
      hfollow f hf₁
    have hf₂ : 6 * rest'.length + 5 ≤ f := by
      simp only [List.length_cons, List.length_append] at hf
      omega
    obtain ⟨e₂, hrun₂, hc₂⟩ := compSegsComplete rest' drest
      (Expr.binary acc o.type e₁) (p.reverse ++ o :: cs) rest hrest f hf₂
    refine ⟨e₂, ?_, ?_⟩
    · simp only [List.cons_append, List.append_assoc]
      rw [compLoop_step f acc cs o (p ++ (rest' ++ rest)) ho]
      rw [hrun₁]
      dsimp only
      rw [hrun₂]
      simp [List.reverse_append, List.append_assoc]
    · simp only [List.length_cons, List.length_append, nodeCountE] at hc₁ hc₂ ⊢
      omega
termination_by 8 * segs.length + 5
decreasing_by all_goals (subst_vars; (try simp only [List.length_cons, List.length_append, List.length_singleton]); omega)

theorem comparisonComplete (ts : List Token) (d : GExpr ts) (cs rest : List Token)
    (hrest : ExprFollow rest) (f : Nat) (hf : 6 * ts.length + 6 ≤ f) :
    ∃ e, parseComparisonF f (cs, ts ++ rest) = .ok (e, (ts.reverse ++ cs, rest)) ∧
      nodeCountE e ≤ ts.length := by
  obtain ⟨f, rfl⟩ : ∃ f', f = f' + 1 := ⟨f - 1, by omega⟩
  cases d with
  | mk p segs dp dsegs =>
    have hfollow : TermFollow (segs ++ rest) :=
      compSegs_follow segs dsegs rest hrest
    have hf₁ : 6 * p.length + 4 ≤ f := by
      simp only [List.length_append] at hf
      omega
    obtain ⟨e₁, hrun₁, hc₁⟩ := termComplete p dp cs (segs ++ rest) hfollow f hf₁
    have hf₂ : 6 * segs.length + 5 ≤ f := by
      simp only [List.length_append] at hf
      omega
    obtain ⟨e₂, hrun₂, hc₂⟩ := compSegsComplete segs dsegs e₁
      (p.reverse ++ cs) rest hrest f hf₂
    refine ⟨e₂, ?_, ?_⟩
    · simp only [parseComparisonF, List.append_assoc]
      rw [hrun₁]
      dsimp only [Bind.bind, Except.bind]
      rw [hrun₂]
      simp [List.reverse_append, List.append_assoc]
    · simp only [List.length_append] at hc₁ hc₂ ⊢
      omega
termination_by 8 * ts.length + 6
decreasing_by all_goals (subst_vars; (try simp only [List.length_cons, List.length_append, List.length_singleton]); omega)

theorem exprComplete (ts : List Token) (d : GExpr ts) (cs rest : List Token)
    (hrest : ExprFollow rest) (f : Nat) (hf : 6 * ts.length + 7 ≤ f) :
    ∃ e, parseExpressionF f (cs, ts ++ rest) = .ok (e, (ts.reverse ++ cs, rest)) ∧
      nodeCountE e ≤ ts.length := by
  obtain ⟨f, rfl⟩ : ∃ f', f = f' + 1 := ⟨f - 1, by omega⟩
  obtain ⟨e, hrun, hc⟩ := comparisonComplete ts d cs rest hrest f (by omega)
  refine ⟨e, ?_, hc⟩
  simp only [parseExpressionF]
  rw [hrun]
  rfl
termination_by 8 * ts.length + 7
decreasing_by all_goals (subst_vars; (try simp only [List.length_cons, List.length_append, List.length_singleton]); omega)

end

theorem gstmt_head (ts : List Token) (d : GStmt ts) :
    ∃ t r', ts = t :: r' ∧
      (t.type = .RETURN ∨ t.type = .IF ∨ t.type = .INT ∨ t.type = .LBRACE) := by
  cases d with
  | ret r s e hr hs he => exact ⟨r, _, rfl, Or.inl hr⟩
  | ifThen i l rp c s hi _ _ _ _ => exact ⟨i, _, rfl, Or.inr (Or.inl hi)⟩
  | ifElse i l rp el c s₁ s₂ hi _ _ _ _ _ _ => exact ⟨i, _, rfl, Or.inr (Or.inl hi)⟩
  | decl k x a s e hk _ _ _ _ => exact ⟨k, _, rfl, Or.inr (Or.inr (Or.inl hk))⟩
  | blk ts d' =>
    cases d' with
    | mk l r ss hl _ _ => exact ⟨l, _, rfl, Or.inr (Or.inr (Or.inr hl))⟩

theorem gstmts_headNotElse (ss : List Token) (d : GStmts ss) (rb : Token)
    (r' : List Token) (hrb : rb.type ≠ .ELSE) : headNotElse (ss ++ rb :: r') := by
  cases d with
  | nil => exact ⟨rb, r', by simp, hrb⟩
  | cons s rest₁ d₁ _ =>
    obtain ⟨t, tr, hts, hkind⟩ := gstmt_head s d₁
    refine ⟨t, tr ++ (rest₁ ++ rb :: r'), by simp [hts], ?_⟩
    rcases hkind with h | h | h | h <;> rw [h] <;> decide

mutual

theorem stmtComplete (ts : List Token) (d : GStmt ts) (L : List ElseChunk)
    (hL : ∀ ck ∈ L, chunkGood ck) (cs rest : List Token) (hrest : headNotElse rest)
    (f : Nat) (hf : 6 * (ts.length + (chunksToks L).length) + 12 ≤ f) :
    ∃ (Lc Lr : List ElseChunk) (node : Stmt), L = Lc ++ Lr ∧
      parseStatementF f (cs, ts ++ (chunksToks L ++ rest)) =
        .ok (node, ((ts ++ chunksToks Lc).reverse ++ cs, chunksToks Lr ++ rest)) ∧
      nodeCountS node ≤ ts.length + (chunksToks Lc).length := by
  obtain ⟨f, rfl⟩ : ∃ f', f = f' + 1 := ⟨f - 1, by omega⟩
  cases d with
  | ret r s e hr hs de =>
    have hf' : 6 * e.length + 7 ≤ f := by
      simp only [List.length_cons, List.length_append, List.length_singleton] at hf
      omega
    obtain ⟨ee, hrun, hc⟩ := exprComplete e de (r :: cs)
      (s :: (chunksToks L ++ rest)) ⟨s, _, rfl, by rw [hs]; simp [NotExprOp]⟩ f hf'
    refine ⟨[], L, Stmt.ret ee, by simp, ?_, ?_⟩
    · simp only [parseStatementF, List.cons_append, List.append_assoc,
        List.singleton_append, List.nil_append]
      rw [matchTokP_cons_eq cs r _ .RETURN hr (by rw [hr]; decide)]
      dsimp only [Bind.bind, Except.bind]
      simp only [if_true]
      rw [hrun]
      dsimp only [Bind.bind, Except.bind]
      rw [consumeP_cons_eq _ s _ .SEMICOLON _ hs (by rw [hs]; decide)]
      simp [wrapErr, chunksToks_nil, List.reverse_append, List.reverse_cons,
        List.append_assoc, Bind.bind, Except.bind, Pure.pure, Except.pure]
    · simp only [nodeCountS, chunksToks_nil, List.length_cons, List.length_append,
        List.length_singleton, List.length_nil]
      omega
  | decl k x a s e hk hx ha hs de =>
    have hf' : 6 * e.length + 7 ≤ f := by
      simp only [List.length_cons, List.length_append, List.length_singleton] at hf
      omega
    obtain ⟨ee, hrun, hc⟩ := exprComplete e de (a :: x :: k :: cs)
      (s :: (chunksToks L ++ rest)) ⟨s, _, rfl, by rw [hs]; simp [NotExprOp]⟩ f hf'
    refine ⟨[], L, Stmt.varDecl x.value ee, by simp, ?_, ?_⟩
    · simp only [parseStatementF, List.cons_append, List.append_assoc,
        List.singleton_append, List.nil_append]
      rw [matchTokP_cons_neq cs k _ .RETURN (by rw [hk]; decide)]
      dsimp only [Bind.bind, Except.bind]
      simp only [Bool.false_eq_true, if_false]
      rw [matchTokP_cons_neq cs k _ .IF (by rw [hk]; decide)]
      dsimp only [Bind.bind, Except.bind]
      simp only [Bool.false_eq_true, if_false]
      rw [matchTokP_cons_eq cs k _ .INT hk (by rw [hk]; decide)]
      dsimp only [Bind.bind, Except.bind]
      simp only [if_true]
      rw [consumeP_cons_eq _ x _ .IDENTIFIER _ hx (by rw [hx]; decide)]
      dsimp only [Bind.bind, Except.bind]
      rw [consumeP_cons_eq _ a _ .ASSIGN _ ha (by rw [ha]; decide)]
      dsimp only [Bind.bind, Except.bind]
      rw [hrun]
      dsimp only [Bind.bind, Except.bind]
      rw [consumeP_cons_eq _ s _ .SEMICOLON _ hs (by rw [hs]; decide)]
      simp [wrapErr, chunksToks_nil, List.reverse_append, List.reverse_cons,
        List.append_assoc, Bind.bind, Except.bind, Pure.pure, Except.pure]
    · simp only [nodeCountS, chunksToks_nil, List.length_cons, List.length_append,
        List.length_singleton, List.length_nil]
      omega
  | blk bts d' =>
    obtain ⟨l, r, ss, hl, hrr, dss⟩ := d'
    have hf' : 6 * (l :: (ss ++ [r])).length + 11 ≤ f := by
      simp only [List.length_cons, List.length_append, List.length_singleton] at hf ⊢
      omega
    obtain ⟨node, hrun, hc⟩ := blockComplete (l :: (ss ++ [r]))
      (GBlock.mk l r ss hl hrr dss) cs (chunksToks L ++ rest) f hf'
    refine ⟨[], L, node, by simp, ?_, ?_⟩
    · simp only [List.cons_append, List.append_assoc, List.singleton_append,
        List.nil_append] at hrun ⊢
      simp only [parseStatementF]
      rw [matchTokP_cons_neq cs l _ .RETURN (by rw [hl]; decide)]
      dsimp only [Bind.bind, Except.bind]
      simp only [Bool.false_eq_true, if_false]
      rw [matchTokP_cons_neq cs l _ .IF (by rw [hl]; decide)]
      dsimp only [Bind.bind, Except.bind]
      simp only [Bool.false_eq_true, if_false]
      rw [matchTokP_cons_neq cs l _ .INT (by rw [hl]; decide)]
      dsimp only [Bind.bind, Except.bind]
      simp only [Bool.false_eq_true, if_false]
      rw [matchTokP_cons_eq cs l _ .LBRACE hl (by rw [hl]; decide)]
      dsimp only [Bind.bind, Except.bind]
      simp only [if_true]
      rw [show rewindP (l :: cs, ss ++ (r :: (chunksToks L ++ rest))) =
        .ok (cs, l :: (ss ++ (r :: (chunksToks L ++ rest)))) from rfl]
      dsimp only [Bind.bind, Except.bind]
      rw [hrun]
      simp [wrapErr, chunksToks_nil, List.reverse_append, List.reverse_cons,
        List.append_assoc]
    · simp only [chunksToks_nil, List.length_nil] at hc ⊢
      omega
  | ifThen i l rp c s hi hl hrp dc ds =>
    have hfc : 6 * c.length + 7 ≤ f := by
      simp only [List.length_cons, List.length_append] at hf
      omega
    obtain ⟨ce, hrunC, hcC⟩ := exprComplete c dc (l :: i :: cs)
      (rp :: (s ++ (chunksToks L ++ rest)))
      ⟨rp, _, rfl, by rw [hrp]; simp [NotExprOp]⟩ f hfc
    have hfs : 6 * (s.length + (chunksToks L).length) + 12 ≤ f := by
      simp only [List.length_cons, List.length_append] at hf
      omega
    obtain ⟨Lc, Lr, tnode, hsplit, hrunS, hcS⟩ := stmtComplete s ds L hL
      (rp :: (c.reverse ++ l :: i :: cs)) rest hrest f hfs
    have hLr : ∀ ck ∈ Lr, chunkGood ck := fun ck hck =>
      hL ck (by rw [hsplit]; exact List.mem_append_right _ hck)
    have hlen : (chunksToks L).length =
        (chunksToks Lc).length + (chunksToks Lr).length := by
      rw [hsplit, chunksToks_append, List.length_append]
    have hfe : 6 * (chunksToks Lr).length + 8 ≤ f := by
      simp only [List.length_cons, List.length_append] at hf
      omega
    obtain ⟨Lc', Lr', eb, hsplit', hne', hrunE, hcE⟩ := elseTailComplete Lr hLr
      ((s ++ chunksToks Lc).reverse ++ (rp :: (c.reverse ++ l :: i :: cs)))
      rest hrest f hfe ce tnode
    refine ⟨Lc ++ Lc', Lr', Stmt.ifStmt ce tnode eb,
      by rw [hsplit, hsplit', List.append_assoc], ?_, ?_⟩
    · simp only [parseStatementF, List.cons_append, List.append_assoc,
        List.singleton_append, List.nil_append]
      rw [matchTokP_cons_neq cs i _ .RETURN (by rw [hi]; decide)]
      dsimp only [Bind.bind, Except.bind]
      simp only [Bool.false_eq_true, if_false]
      rw [matchTokP_cons_eq cs i _ .IF hi (by rw [hi]; decide)]
      dsimp only [Bind.bind, Except.bind]
      simp only [if_true]
      rw [consumeP_cons_eq _ l _ .LPAREN _ hl (by rw [hl]; decide)]
      dsimp only [Bind.bind, Except.bind]
      rw [hrunC]
      dsimp only [Bind.bind, Except.bind]
      rw [consumeP_cons_eq _ rp _ .RPAREN _ hrp (by rw [hrp]; decide)]
      dsimp only [Bind.bind, Except.bind]
      rw [hrunS]
      dsimp only [Bind.bind, Except.bind]
      rw [hrunE]
      simp [wrapErr, chunksToks_append, List.reverse_append, List.reverse_cons,
        List.append_assoc]
    · simp only [nodeCountS, chunksToks_append, List.length_cons,
        List.length_append] at hcC hcS hcE ⊢
      omega
  | ifElse i l rp el c s₁ s₂ hi hl hrp hel dc ds₁ ds₂ =>
    have hfc : 6 * c.length + 7 ≤ f := by
      simp only [List.length_cons, List.length_append] at hf
      omega
    obtain ⟨ce, hrunC, hcC⟩ := exprComplete c dc (l :: i :: cs)
      (rp :: (s₁ ++ (el :: (s₂ ++ (chunksToks L ++ rest)))))
      ⟨rp, _, rfl, by rw [hrp]; simp [NotExprOp]⟩ f hfc
    have hLck : ∀ ck ∈ (⟨el, ⟨s₂, ds₂⟩⟩ : ElseChunk) :: L, chunkGood ck := by
      intro ck hck
      rcases List.mem_cons.mp hck with rfl | hck
      · exact hel
      · exact hL ck hck
    have hfs : 6 * (s₁.length +
        (chunksToks ((⟨el, ⟨s₂, ds₂⟩⟩ : ElseChunk) :: L)).length) + 12 ≤ f := by
      simp only [chunksToks_cons, List.length_cons, List.length_append] at hf ⊢
      omega
    obtain ⟨Lc, Lr, tnode, hsplit, hrunS, hcS⟩ := stmtComplete s₁ ds₁
      ((⟨el, ⟨s₂, ds₂⟩⟩ : ElseChunk) :: L) hLck
      (rp :: (c.reverse ++ l :: i :: cs)) rest hrest f hfs
    have hLr : ∀ ck ∈ Lr, chunkGood ck := fun ck hck =>
      hLck ck (by rw [hsplit]; exact List.mem_append_right _ hck)
    have hlen : s₂.length + (chunksToks L).length + 1 =
        (chunksToks Lc).length + (chunksToks Lr).length := by
      have := congrArg (fun z => (chunksToks z).length) hsplit
      simpa [chunksToks_cons, chunksToks_append, chunkToks] using this
    have hfe : 6 * (chunksToks Lr).length + 8 ≤ f := by
      simp only [List.length_cons, List.length_append] at hf
      omega
    obtain ⟨Lc', Lr', eb, hsplit', hne', hrunE, hcE⟩ := elseTailComplete Lr hLr
      ((s₁ ++ chunksToks Lc).reverse ++ (rp :: (c.reverse ++ l :: i :: cs)))
      rest hrest f hfe ce tnode
    have hPne : Lc ++ Lc' ≠ [] := by
      intro hPnil
      rcases List.append_eq_nil.mp hPnil with ⟨h₁, h₂⟩
      subst h₁
      simp only [List.nil_append] at hsplit
      exact hne' (by rw [← hsplit]; simp) h₂
    have hPsh : ∃ M : List ElseChunk, Lc ++ Lc' = (⟨el, ⟨s₂, ds₂⟩⟩ : ElseChunk) :: M ∧
        L = M ++ Lr' := by
      have hassoc : (⟨el, ⟨s₂, ds₂⟩⟩ : ElseChunk) :: L = (Lc ++ Lc') ++ Lr' := by
        rw [hsplit, hsplit', List.append_assoc]
      cases hP : Lc ++ Lc' with
      | nil => exact absurd hP hPne
      | cons p M =>
        rw [hP] at hassoc
        simp only [List.cons_append] at hassoc
        obtain ⟨hp, hLrest⟩ := List.cons_eq_cons.mp hassoc
        exact ⟨M, by rw [← hp], hLrest⟩
    obtain ⟨M, hM, hLM⟩ := hPsh
    have hFF : chunksToks Lc ++ chunksToks Lc' =
        el :: (s₂ ++ chunksToks M) := by
      rw [← chunksToks_append, hM, chunksToks_cons]
    refine ⟨M, Lr', Stmt.ifStmt ce tnode eb, hLM, ?_, ?_⟩
    · simp only [parseStatementF, List.cons_append, List.append_assoc,
        List.singleton_append, List.nil_append]
      rw [matchTokP_cons_neq cs i _ .RETURN (by rw [hi]; decide)]
      dsimp only [Bind.bind, Except.bind]
      simp only [Bool.false_eq_true, if_false]
      rw [matchTokP_cons_eq cs i _ .IF hi (by rw [hi]; decide)]
      dsimp only [Bind.bind, Except.bind]
      simp only [if_true]
      rw [consumeP_cons_eq _ l _ .LPAREN _ hl (by rw [hl]; decide)]
      dsimp only [Bind.bind, Except.bind]
      rw [hrunC]
      dsimp only [Bind.bind, Except.bind]
      rw [consumeP_cons_eq _ rp _ .RPAREN _ hrp (by rw [hrp]; decide)]
      dsimp only [Bind.bind, Except.bind]
      have hrunS' := hrunS
      simp only [chunksToks_cons, List.cons_append, List.append_assoc,
        List.nil_append] at hrunS'
      rw [hrunS']
      dsimp only [Bind.bind, Except.bind]
      rw [hrunE]
      have hRR : ∀ X : List Token,
          (chunksToks Lc').reverse ++ ((chunksToks Lc).reverse ++ X) =
            (chunksToks M).reverse ++ (s₂.reverse ++ (el :: X)) := by
        intro X
        have h := congrArg List.reverse hFF
        simp only [List.reverse_append, List.reverse_cons, List.reverse_nil,
          List.nil_append, List.append_assoc] at h
        rw [← List.append_assoc, h]
        simp [List.append_assoc]
      simp [wrapErr, chunksToks_append, chunksToks_cons, List.reverse_append,
        List.reverse_cons, List.append_assoc, hRR]
    · have hlen2 : (chunksToks Lc).length + (chunksToks Lc').length =
          s₂.length + (chunksToks M).length + 1 := by
        have := congrArg List.length hFF
        simpa [List.length_append] using this
      have hcS' := hcS
      simp only [nodeCountS, chunksToks_append, chunksToks_cons,
        List.length_cons, List.length_append] at hcC hcS' hcE ⊢
      omega
termination_by 8 * (ts.length + (chunksToks L).length) + 3
decreasing_by all_goals
  (subst_vars;
   (try simp only [chunksToks_cons, chunksToks_append, chunkToks,
     List.length_cons, List.length_append, List.length_singleton,
     List.length_nil, chunksToks_nil]);
   omega)

theorem elseTailComplete (L : List ElseChunk) (hL : ∀ ck ∈ L, chunkGood ck)
    (cs rest : List Token) (hrest : headNotElse rest)
    (f : Nat) (hf : 6 * (chunksToks L).length + 8 ≤ f)
    (cond : Expr) (thenB : Stmt) :
    ∃ (Lc Lr : List ElseChunk) (eb : Option Stmt), L = Lc ++ Lr ∧
      (L ≠ [] → Lc ≠ []) ∧
      parseElseOptF f cond thenB (cs, chunksToks L ++ rest) =
        .ok (Stmt.ifStmt cond thenB eb,
          ((chunksToks Lc).reverse ++ cs, chunksToks Lr ++ rest)) ∧
      nodeCountOpt eb ≤ (chunksToks Lc).length := by
  obtain ⟨f, rfl⟩ : ∃ f', f = f' + 1 := ⟨f - 1, by omega⟩
  cases L with
  | nil =>
    obtain ⟨t, r', rfl, hne⟩ := hrest
    refine ⟨[], [], none, rfl, by simp, ?_, by simp [nodeCountOpt]⟩
    simp only [parseElseOptF, chunksToks_nil, List.nil_append, List.reverse_nil]
    rw [matchTokP_cons_neq cs t r' .ELSE hne]
    rfl
  | cons ck L' =>
    have hets : ck.1.type = .ELSE := hL _ (List.mem_cons_self _ _)
    have hL' : ∀ c ∈ L', chunkGood c := fun c hck =>
      hL c (List.mem_cons_of_mem _ hck)
    have hfs : 6 * (ck.2.1.length + (chunksToks L').length) + 12 ≤ f := by
      simp only [chunksToks_cons, List.length_cons, List.length_append] at hf
      omega
    obtain ⟨Lc, Lr, node, hsplit, hrun, hcount⟩ := stmtComplete ck.2.1 ck.2.2
      L' hL' (ck.1 :: cs) rest hrest f hfs
    refine ⟨ck :: Lc, Lr, some node, by rw [hsplit]; rfl, by simp, ?_, ?_⟩
    · simp only [parseElseOptF, chunksToks_cons, List.cons_append,
        List.append_assoc, List.nil_append]
      rw [matchTokP_cons_eq cs ck.1 _ .ELSE hets (by rw [hets]; decide)]
      dsimp only [Bind.bind, Except.bind]
      simp only [if_true]
      rw [hrun]
      dsimp only [Bind.bind, Except.bind, Pure.pure, Except.pure]
      simp [chunksToks_cons, List.reverse_append, List.reverse_cons,
        List.append_assoc]
    · simp only [nodeCountOpt, chunksToks_cons, List.length_cons,
        List.length_append]
      omega
termination_by 8 * (chunksToks L).length + 2
decreasing_by all_goals
  (subst_vars;
   (try simp only [chunksToks_cons, chunksToks_append, chunkToks,
     List.length_cons, List.length_append, List.length_singleton,
     List.length_nil, chunksToks_nil]);
   omega)

theorem blockComplete (ts : List Token) (d : GBlock ts) (cs rest : List Token)
    (f : Nat) (hf : 6 * ts.length + 11 ≤ f) :
    ∃ node, parseBlockF f (cs, ts ++ rest) = .ok (node, (ts.reverse ++ cs, rest)) ∧
      nodeCountS node ≤ ts.length := by
  obtain ⟨f, rfl⟩ : ∃ f', f = f' + 1 := ⟨f - 1, by omega⟩
  cases d with
  | mk l r ss hl hrr dss =>
    have hfs : 6 * ss.length + 16 ≤ f := by
      simp only [List.length_cons, List.length_append, List.length_singleton] at hf
      omega
    obtain ⟨nodes, hrun, hc⟩ := stmtsComplete ss dss (l :: cs) r rest hrr f hfs
    refine ⟨Stmt.block nodes, ?_, ?_⟩
    · simp only [parseBlockF, List.cons_append, List.append_assoc,
        List.singleton_append, List.nil_append]
      rw [consumeP_cons_eq _ l _ .LBRACE _ hl (by rw [hl]; decide)]
      dsimp only [Bind.bind, Except.bind]
      rw [hrun]
      dsimp only [Bind.bind, Except.bind]
      rw [consumeP_cons_eq _ r _ .RBRACE _ hrr (by rw [hrr]; decide)]
      simp [wrapErr, List.reverse_append, List.reverse_cons, List.append_assoc,
        Bind.bind, Except.bind, Pure.pure, Except.pure]
    · simp only [nodeCountS, List.length_cons, List.length_append,
        List.length_singleton]
      omega
termination_by 8 * ts.length + 1
decreasing_by all_goals
  (subst_vars;
   (try simp only [chunksToks_cons, chunksToks_append, chunkToks,
     List.length_cons, List.length_append, List.length_singleton,
     List.length_nil, chunksToks_nil]);
   omega)

theorem stmtsComplete (ss : List Token) (d : GStmts ss) (cs : List Token)
    (rb : Token) (r' : List Token) (hrb : rb.type = .RBRACE)
    (f : Nat) (hf : 6 * ss.length + 16 ≤ f) :
    ∃ nodes, parseBlockLoopF f (cs, ss ++ rb :: r') =
        .ok (nodes, (ss.reverse ++ cs, rb :: r')) ∧
      nodeCountL nodes ≤ ss.length := by
  obtain ⟨f, rfl⟩ : ∃ f', f = f' + 1 := ⟨f - 1, by omega⟩
  cases d with
  | nil =>
    refine ⟨[], ?_, by simp [nodeCountL]⟩
    simp only [parseBlockLoopF, List.nil_append, List.reverse_nil]
    rw [checkP_cons_eq cs rb r' .RBRACE hrb (by rw [hrb]; decide)]
    dsimp only [Bind.bind, Except.bind]
    rw [isAtEndP_cons cs rb r' (by rw [hrb]; decide)]
    rfl
  | cons s srest d₁ drest =>
    obtain ⟨th, ttr, hts, hkind⟩ := gstmt_head s d₁
    subst hts
    have hthne : th.type ≠ .RBRACE := by
      rcases hkind with h | h | h | h <;> rw [h] <;> decide
    have hthnee : th.type ≠ .EOF_TOKEN := by
      rcases hkind with h | h | h | h <;> rw [h] <;> decide
    have hrest' : headNotElse (srest ++ rb :: r') :=
      gstmts_headNotElse srest drest rb r' (by rw [hrb]; decide)
    have hfs : 6 * ((th :: ttr).length +
        (chunksToks ([] : List ElseChunk)).length) + 12 ≤ f := by
      simp only [chunksToks_nil, List.length_nil, List.length_cons,
        List.length_append] at hf ⊢
      omega
    obtain ⟨Lc, Lr, node, hsplit, hrun, hcount⟩ := stmtComplete (th :: ttr) d₁ []
      (by simp) cs (srest ++ rb :: r') hrest' f hfs
    obtain ⟨rfl, rfl⟩ : Lc = [] ∧ Lr = [] := List.append_eq_nil.mp hsplit.symm
    have hfl : 6 * srest.length + 16 ≤ f := by
      simp only [List.length_append, List.length_cons] at hf
      omega
    obtain ⟨nodes, hrunL, hcL⟩ := stmtsComplete srest drest
      ((th :: ttr).reverse ++ cs) rb r' hrb f hfl
    refine ⟨node :: nodes, ?_, ?_⟩
    · simp only [parseBlockLoopF, List.append_assoc, List.cons_append]
      rw [checkP_cons_neq cs th _ .RBRACE hthne]
      dsimp only [Bind.bind, Except.bind]
      rw [isAtEndP_cons cs th _ hthnee]
      dsimp only [Bind.bind, Except.bind]
      simp only [Bool.not_false, Bool.and_self, if_true]
      have hrun' := hrun
      simp only [chunksToks_nil, List.nil_append, List.append_nil,
        List.append_assoc, List.cons_append] at hrun'
      rw [hrun']
      dsimp only [Bind.bind, Except.bind]
      rw [hrunL]
      dsimp only [Bind.bind, Except.bind, Pure.pure, Except.pure]
      simp [List.reverse_append, List.reverse_cons, List.append_assoc]
    · simp only [nodeCountL, chunksToks_nil, List.length_nil, List.length_cons,
        List.length_append] at hcount ⊢
      omega
termination_by 8 * ss.length + 4
decreasing_by all_goals
  (subst_vars;
   (try simp only [chunksToks_cons, chunksToks_append, chunkToks,
     List.length_cons, List.length_append, List.length_singleton,
     List.length_nil, chunksToks_nil]);
   omega)

end

/-- Completeness at the entry point `Parser::parseFunction`: a token span
derivable as `function` in the grammar parses to a statement consuming
exactly that span, with at most one AST node per token of the span. -/
theorem funcComplete (ts : List Token) (d : GFunction ts) (cs rest : List Token)
    (f : Nat) (hf : 6 * ts.length + 12 ≤ f) :
    ∃ node, parseFunctionF f (cs, ts ++ rest) =
        .ok (node, (ts.reverse ++ cs, rest)) ∧
      nodeCountS node ≤ ts.length := by
  obtain ⟨f, rfl⟩ : ∃ f_, f = f_ + 1 := ⟨f - 1, by omega⟩
  cases d with
  | mk k n l r b hk hn hl hr db =>
    have hfb : 6 * b.length + 11 ≤ f := by
      simp only [List.length_cons] at hf
      omega
    obtain ⟨body, hrun, hc⟩ := blockComplete b db (r :: l :: n :: k :: cs) rest f hfb
    refine ⟨Stmt.funcDecl n.value [] body, ?_, ?_⟩
    · simp only [parseFunctionF, List.cons_append]
      rw [consumeP_cons_eq cs k _ .INT _ hk (by rw [hk]; decide)]
      dsimp only [Bind.bind, Except.bind]
      rw [consumeP_cons_eq (k :: cs) n _ .IDENTIFIER _ hn (by rw [hn]; decide)]
      dsimp only [Bind.bind, Except.bind]
      rw [consumeP_cons_eq (n :: k :: cs) l _ .LPAREN _ hl (by rw [hl]; decide)]
      dsimp only [Bind.bind, Except.bind]
      rw [consumeP_cons_eq (l :: n :: k :: cs) r _ .RPAREN _ hr (by rw [hr]; decide)]
      dsimp only [Bind.bind, Except.bind]
      rw [hrun]
      dsimp only [Bind.bind, Except.bind, Pure.pure, Except.pure]
      simp [wrapErr, List.reverse_cons, List.reverse_append, List.append_assoc]
    · simp only [nodeCountS, List.length_cons]
      omega

/-- C1: for every source text that is a valid program of the grammar —
validity taken as: the full lexer tokenizes it, and the resulting token
sequence is a span carrying a derivation of the `function` rule followed by
a remainder (in a run of the pipeline, the trailing EOF token) — parsing
the token sequence with enough fuel succeeds, and the number of AST nodes
of the resulting tree is at most the number of tokens.  The grammar
derivations include the comparison operators through `GCompSegs`. -/
theorem claim_C1 (src : String) (ts fts rest : List Token)
    (htok : tokenizeFull src = .ok ts)
    (d : GFunction fts) (hts : ts = fts ++ rest)
    (f : Nat) (hf : 6 * fts.length + 12 ≤ f) :
    ∃ ast st_, parseFunction ts f = .ok (ast, st_) ∧
      nodeCountS ast ≤ ts.length := by
  subst hts
  obtain ⟨node, hrun, hc⟩ := funcComplete fts d [] rest f hf
  refine ⟨node, (fts.reverse ++ [], rest), ?_, ?_⟩
  · exact hrun
  · simp only [List.length_append]
    omega

/-- C1 witness: the hypotheses discharged at the concrete program
`c1Src` (whose body uses the comparison operator `>=`): tokenization
succeeds, the token list splits as the derived `function` span plus the
trailing EOF token, and parsing succeeds with node count at most the
token count. -/
theorem claim_C1_witness :
    tokenizeFull c1Src = .ok (c1Fts ++ [Token.mk .EOF_TOKEN "" 1 33]) ∧
    ∃ ast st_,
      parseFunction (c1Fts ++ [Token.mk .EOF_TOKEN "" 1 33]) 100 = .ok (ast, st_) ∧
      nodeCountS ast ≤ (c1Fts ++ [Token.mk .EOF_TOKEN "" 1 33]).length :=
  ⟨rfl, claim_C1 c1Src (c1Fts ++ [Token.mk .EOF_TOKEN "" 1 33]) c1Fts
    [Token.mk .EOF_TOKEN "" 1 33] rfl c1Deriv rfl 100 (by decide)⟩

end CC
